import Mathlib

/-!
# MobileGPS: NMEA sentence framing, checksum validation and field extraction

A shallow embedding of `CMobileGPS` (src/MobileGPS.cpp): `interpret`, `checkXOR`,
`calcXOR`, `processGGA`, `processRMC` and `mystrsep`.

Conventions of the embedding.

* A byte (`unsigned char`) is a natural number below 256; text is a list of bytes.
* Memory is a list of bytes, a pointer into it is an index. `m_data` is the list of the
  bytes of the `new unsigned char[1000U]` allocation, so its length is its capacity and
  what lies behind the bytes written last is whatever earlier sentences left there.
* The C++ members keep their names. `m_file` and `m_debug` are left out: they only select
  the configuration file and switch a diagnostic dump on.
* A step that C++ leaves undefined (a read or write outside an array, `strcmp` on a null
  pointer) ends the computation with a `Fault`; every function returns `Except Fault _`.
* `m_altitude`, `m_speed` and `m_bearing` are floating point. Their values are kept
  symbolic (`FloatVal`): which text was handed to `atof` and whether the product with
  `3.28F` was taken. No rounding is modelled.
-/

deriving instance DecidableEq for Except

namespace MobileGPS

/-- Undefined behaviour the C++ code can run into. -/
inductive Fault where
  /-- The write `m_data[m_offset++]` with `m_offset` outside the allocation. -/
  | dataOverflow
  /-- A read behind the last byte of the `m_data` allocation. -/
  | readPastEnd
  /-- The write `pGGA[n]` or `pRMC[n]` with `n >= 20`. -/
  | tokenOverflow
  /-- A null token handed to `strcmp`. -/
  | nullPointer
  /-- A `strcpy` whose source, with its terminator, is longer than the destination array. -/
  | textOverflow
deriving DecidableEq

/-- Symbolic value of a `float` member. -/
inductive FloatVal where
  /-- The literal `0.0F` of the constructor. -/
  | zero
  /-- The value `::atof(text)`. -/
  | atof (text : List Nat)
  /-- The value `::atof(text) * 3.28F`. -/
  | atofFeet (text : List Nat)
deriving DecidableEq

/-- The members of `CMobileGPS` that `interpret` and the parsers read or write. The four
text members hold the C string stored in their array. -/
structure State where
  m_data : List Nat
  m_offset : Nat
  m_collect : Bool
  m_latitude : List Nat
  m_latitudeNS : List Nat
  m_longitude : List Nat
  m_longitudeEW : List Nat
  m_altitude : FloatVal
  m_speed : FloatVal
  m_bearing : FloatVal
deriving DecidableEq

/-- The Position State of the spec: the seven members the parsers publish. -/
structure Position where
  latitude : List Nat
  latitudeNS : List Nat
  longitude : List Nat
  longitudeEW : List Nat
  altitude : FloatVal
  speed : FloatVal
  bearing : FloatVal
deriving DecidableEq

/-- The Position State held in a `State`. -/
def State.position (s : State) : Position :=
  { latitude := s.m_latitude, latitudeNS := s.m_latitudeNS,
    longitude := s.m_longitude, longitudeEW := s.m_longitudeEW,
    altitude := s.m_altitude, speed := s.m_speed, bearing := s.m_bearing }

/-- The bytes of a text, one per character (used for ASCII text only). -/
def bytes (s : String) : List Nat := s.toList.map Char.toNat

/-- Size of `m_data`: `new unsigned char[1000U]`. -/
def DATA_SIZE : Nat := 1000

/-- Size of `m_latitude` and `m_longitude`: `new char[20U]`. -/
def COORD_SIZE : Nat := 20

/-- Size of `m_latitudeNS` and `m_longitudeEW`: `new char[5U]`. -/
def HEMI_SIZE : Nat := 5

/-- Number of entries of `pGGA` and `pRMC`: `char* pGGA[20U]`. -/
def TOKEN_SLOTS : Nat := 20

/-- The delimiter set `",\r\n"` of both parsers. -/
def SEP : List Nat := [44, 13, 10]

/-- The literal `"GGA"`. -/
def GGA : List Nat := [71, 71, 65]

/-- The literal `"RMC"`. -/
def RMC : List Nat := [82, 77, 67]

/-- What the constructor establishes: 1000 bytes of `m_data` with unspecified contents,
offset 0, not collecting, the three numeric members 0; the text arrays are allocated and
not written. -/
def Initial (s : State) : Prop :=
  s.m_data.length = DATA_SIZE ∧ s.m_offset = 0 ∧ s.m_collect = false ∧
  s.m_altitude = FloatVal.zero ∧ s.m_speed = FloatVal.zero ∧ s.m_bearing = FloatVal.zero

/-- The value of `n - 1U` for an `unsigned int` n: it wraps at 0. -/
def sub1 (n : Nat) : Nat := if n = 0 then 4294967295 else n - 1

/-- One digit of `%X`: `0`-`9`, then `A`-`F`. -/
def hexDigit (d : Nat) : Nat := if d < 10 then 48 + d else 55 + d

/-- The text `sprintf(buffer, "%02X", csum)` writes for an `unsigned char` csum. -/
def hex2 (csum : Nat) : List Nat := [hexDigit (csum / 16 % 16), hexDigit (csum % 16)]

/-- The call `::memcmp(lit, mem + off, lit.length) == 0`. All bytes compared have to lie
inside the allocation. -/
def memcmp (lit mem : List Nat) (off : Nat) : Except Fault Bool :=
  if off + lit.length ≤ mem.length then
    .ok (decide ((mem.drop off).take lit.length = lit))
  else .error .readPastEnd

/-- The loop `for (i = start; i > 0U; i--) if (data[i] == '*') { posStar = i; break; }` of
`checkXOR`, as the value `posStar` has after it (0 when no `*` was met). -/
def findStar (data : List Nat) : Nat → Except Fault Nat
  | 0 => .ok 0
  | i + 1 =>
    match data[i + 1]? with
    | none => .error .readPastEnd
    | some b => if b = 42 then .ok (i + 1) else findStar data i

/-- The function `CMobileGPS::calcXOR`: the XOR of `buffer[0] .. buffer[length - 1]`, kept in
an `unsigned char`. -/
def calcXOR (buffer : List Nat) : Nat → Except Fault Nat
  | 0 => .ok 0
  | n + 1 =>
    match calcXOR buffer n with
    | .error e => .error e
    | .ok res =>
      match buffer[n]? with
      | none => .error .readPastEnd
      | some b => .ok ((res ^^^ b) % 256)

/-- The function `CMobileGPS::checkXOR`; `data` is the memory from the pointer `data` on. -/
def checkXOR (data : List Nat) (length : Nat) : Except Fault Bool :=
  match findStar data (sub1 length) with
  | .error e => .error e
  | .ok posStar =>
    if posStar = 0 then .ok false
    else
      match calcXOR data posStar with
      | .error e => .error e
      | .ok csum => memcmp (hex2 csum) data (posStar + 1)

/-- The call `::strcspn(s, reject)` on the memory from `s` on: the number of bytes before the
first NUL or byte of `reject`. -/
def strcspn : List Nat → List Nat → Except Fault Nat
  | [], _ => .error .readPastEnd
  | b :: rest, reject =>
    if b = 0 ∨ b ∈ reject then .ok 0
    else
      match strcspn rest reject with
      | .error e => .error e
      | .ok n => .ok (n + 1)

/-- The function `CMobileGPS::mystrsep`. The argument `sp` is the value of `*sp` (`none` for
a null pointer); the result is the returned pointer, the memory and the new value of
`*sp`. -/
def mystrsep (mem : List Nat) (sp : Option Nat) (sep : List Nat) :
    Except Fault (Option Nat × List Nat × Option Nat) :=
  match sp with
  | none => .ok (none, mem, none)
  | some s =>
    match mem[s]? with
    | none => .error .readPastEnd
    | some b =>
      if b = 0 then .ok (none, mem, some s)
      else
        match strcspn (mem.drop s) sep with
        | .error e => .error e
        | .ok n =>
          match mem[s + n]? with
          | none => .error .readPastEnd
          | some c =>
            if c ≠ 0 then .ok (some s, mem.set (s + n) 0, some (s + n + 1))
            else .ok (some s, mem, some (s + n))

/-- The token loop of `processGGA` and `processRMC`:
`for (;;) { p = mystrsep(&str, sep); pGGA[n++] = p; if (p == NULL) break; }`.
`slots` is the number of array entries not yet written, `20 - n`; a write with no entry
left is the write `pGGA[20]`. The result is the memory after the loop and the values stored
in `pGGA[n]`, `pGGA[n + 1]`, ... in this order; the last of them is the null pointer. -/
def tokenLoop (sep : List Nat) : Nat → List Nat → Option Nat →
    Except Fault (List Nat × List (Option Nat))
  | slots, mem, str =>
    match mystrsep mem str sep with
    | .error e => .error e
    | .ok (p, mem1, str1) =>
      match slots with
      | 0 => .error .tokenOverflow
      | k + 1 =>
        match p with
        | none => .ok (mem1, [none])
        | some q =>
          match tokenLoop sep k mem1 str1 with
          | .error e => .error e
          | .ok (mem2, ps) => .ok (mem2, some q :: ps)

/-- The pointer `pGGA[i]` for `i < 20` after the loop: the entries the loop did not write
keep the null pointer of `memset`. -/
def entry (ps : List (Option Nat)) (i : Nat) : Option Nat := (ps.getD i none)

/-- The bytes of the C string at the head of the memory, without the NUL. -/
def cstrOf : List Nat → Except Fault (List Nat)
  | [] => .error .readPastEnd
  | b :: rest =>
    if b = 0 then .ok []
    else
      match cstrOf rest with
      | .error e => .error e
      | .ok t => .ok (b :: t)

/-- The C string at the pointer `p`. -/
def cstr (mem : List Nat) (p : Nat) : Except Fault (List Nat) := cstrOf (mem.drop p)

/-- The call `::strcpy(dst, p)` for a destination array of `cap` bytes: the C string now held
by the destination. -/
def strcpy (cap : Nat) (mem : List Nat) (p : Nat) : Except Fault (List Nat) :=
  match cstr mem p with
  | .error e => .error e
  | .ok t => if t.length + 1 ≤ cap then .ok t else .error .textOverflow

/-- The text of token `i`: `none` when `pGGA[i]` is the null pointer. -/
def tokenText (mem : List Nat) (ps : List (Option Nat)) (i : Nat) : Option (List Nat) :=
  match entry ps i with
  | none => none
  | some p =>
    match cstr mem p with
    | .error _ => none
    | .ok t => some t

/-- The call `::strlen(p)`. -/
def strlen (mem : List Nat) (p : Nat) : Except Fault Nat :=
  match cstr mem p with
  | .error e => .error e
  | .ok t => .ok t.length

/-- The call `::strcmp(p, lit) == 0`; the pointer may be null. -/
def strcmp (mem : List Nat) (p : Option Nat) (lit : List Nat) : Except Fault Bool :=
  match p with
  | none => .error .nullPointer
  | some q =>
    match cstr mem q with
    | .error e => .error e
    | .ok t => .ok (decide (t = lit))

/-- The chain `::strlen(p1) == 0U || ::strlen(p2) == 0U || ...`, evaluated left to right. -/
def anyEmpty (mem : List Nat) : List Nat → Except Fault Bool
  | [] => .ok false
  | p :: ps =>
    match strlen mem p with
    | .error e => .error e
    | .ok n => if n = 0 then .ok true else anyEmpty mem ps

/-- The function `CMobileGPS::processGGA`. -/
def processGGA (s : State) : Except Fault State :=
  -- Parse the $GPGGA string into tokens
  match tokenLoop SEP TOKEN_SLOTS s.m_data (some 0) with
  | .error e => .error e
  | .ok (mem, pGGA) =>
    let s1 := { s with m_data := mem }
    -- Is there any position data?
    match entry pGGA 2, entry pGGA 3, entry pGGA 4, entry pGGA 5 with
    | some p2, some p3, some p4, some p5 =>
      match anyEmpty mem [p2, p3, p4, p5] with
      | .error e => .error e
      | .ok true => .ok s1
      | .ok false =>
        -- Is it a valid GPS fix?
        match strcmp mem (entry pGGA 6) [48] with
        | .error e => .error e
        | .ok true => .ok s1
        | .ok false =>
          match strcpy COORD_SIZE mem p2 with
          | .error e => .error e
          | .ok lat =>
            match strcpy HEMI_SIZE mem p3 with
            | .error e => .error e
            | .ok ns =>
              match strcpy COORD_SIZE mem p4 with
              | .error e => .error e
              | .ok lon =>
                match strcpy HEMI_SIZE mem p5 with
                | .error e => .error e
                | .ok ew =>
                  let s2 := { s1 with m_latitude := lat, m_latitudeNS := ns,
                                      m_longitude := lon, m_longitudeEW := ew }
                  match entry pGGA 9 with
                  | none => .ok s2
                  | some p9 =>
                    match cstr mem p9 with
                    | .error e => .error e
                    | .ok t9 =>
                      -- Convert altitude from metres to feet
                      if t9.length > 0 then .ok { s2 with m_altitude := .atofFeet t9 }
                      else .ok s2
    | _, _, _, _ => .ok s1

/-- The function `CMobileGPS::processRMC`. -/
def processRMC (s : State) : Except Fault State :=
  -- Parse the $GPRMC string into tokens
  match tokenLoop SEP TOKEN_SLOTS s.m_data (some 0) with
  | .error e => .error e
  | .ok (mem, pRMC) =>
    let s1 := { s with m_data := mem }
    -- Is there any position data?
    match entry pRMC 3, entry pRMC 4, entry pRMC 5, entry pRMC 6 with
    | some p3, some p4, some p5, some p6 =>
      match anyEmpty mem [p3, p4, p5, p6] with
      | .error e => .error e
      | .ok true => .ok s1
      | .ok false =>
        -- Is it a valid GPS fix?
        match strcmp mem (entry pRMC 2) [65] with
        | .error e => .error e
        | .ok false => .ok s1
        | .ok true =>
          match strcpy COORD_SIZE mem p3 with
          | .error e => .error e
          | .ok lat =>
            match strcpy HEMI_SIZE mem p4 with
            | .error e => .error e
            | .ok ns =>
              match strcpy COORD_SIZE mem p5 with
              | .error e => .error e
              | .ok lon =>
                match strcpy HEMI_SIZE mem p6 with
                | .error e => .error e
                | .ok ew =>
                  let s2 := { s1 with m_latitude := lat, m_latitudeNS := ns,
                                      m_longitude := lon, m_longitudeEW := ew }
                  match entry pRMC 7, entry pRMC 8 with
                  | some p7, some p8 =>
                    match cstr mem p7 with
                    | .error e => .error e
                    | .ok t7 =>
                      if t7.length > 0 then
                        match cstr mem p8 with
                        | .error e => .error e
                        | .ok t8 =>
                          if t8.length > 0 then
                            .ok { s2 with m_bearing := .atof t8, m_speed := .atof t7 }
                          else .ok s2
                      else .ok s2
                  | _, _ => .ok s2
    | _, _, _, _ => .ok s1

/-- The dispatch on the sentence type:
`if (::memcmp(m_data + 3U, "GGA", 3U) == 0) processGGA();
else if (::memcmp(m_data + 3U, "RMC", 3U) == 0) processRMC();`. -/
def dispatch (s : State) : Except Fault State :=
  match memcmp GGA s.m_data 3 with
  | .error e => .error e
  | .ok true => processGGA s
  | .ok false =>
    match memcmp RMC s.m_data 3 with
    | .error e => .error e
    | .ok true => processRMC s
    | .ok false => .ok s

/-- The assignments `m_offset = 0U; m_collect = false;`. -/
def reset (s : State) : State := { s with m_offset := 0, m_collect := false }

/-- What `interpret` does once the line feed is stored: validate the bytes behind the `$`,
dispatch if they pass, then reset offset and flag. -/
def completeSentence (s : State) : Except Fault State :=
  match checkXOR (s.m_data.drop 1) (sub1 s.m_offset) with
  | .error e => .error e
  | .ok ret =>
    match (if ret then dispatch s else .ok s) with
    | .error e => .error e
    | .ok s1 => .ok (reset s1)

/-- The assignment `m_data[m_offset++] = data[i]`, for an offset inside the allocation. -/
def store (s : State) (c : Nat) : State :=
  { s with m_data := s.m_data.set s.m_offset c, m_offset := (s.m_offset + 1) % 4294967296 }

/-- The body of the loop of `CMobileGPS::interpret` for one byte `data[i]`. -/
def interpretByte (s : State) (c : Nat) : Except Fault State :=
  let s1 := if c = 36 then { s with m_collect := true } else s
  if s1.m_collect then
    if s1.m_offset < s1.m_data.length then
      if c = 10 then completeSentence (store s1 c) else .ok (store s1 c)
    else .error .dataOverflow
  else .ok s1

/-- The function `CMobileGPS::interpret`: the bytes `data[0] .. data[length - 1]` in order. -/
def interpret : State → List Nat → Except Fault State
  | s, [] => .ok s
  | s, c :: rest =>
    match interpretByte s c with
    | .error e => .error e
    | .ok s1 => interpret s1 rest

/-- The states the object can be in: what the constructor leaves, and what `interpret`
returns from such a state. -/
inductive Reachable : State → Prop where
  | init (s : State) : Initial s → Reachable s
  | feed (s t : State) (data : List Nat) : Reachable s → interpret s data = .ok t → Reachable t

instance (s : State) : Decidable (Initial s) := by
  unfold Initial; infer_instance

/-- The XOR of all bytes of a text (0 for the empty text). -/
def xorAll (B : List Nat) : Nat := B.foldl (fun r b => r ^^^ b) 0

/-- The invariant behind the reset: while not collecting, nothing is stored. -/
def Idle (s : State) : Prop := s.m_collect = false → s.m_offset = 0

/-- A state as the constructor leaves it, with `m_data` and the text arrays zero filled. -/
def fresh : State :=
  { m_data := List.replicate 1000 0, m_offset := 0, m_collect := false,
    m_latitude := [], m_latitudeNS := [], m_longitude := [], m_longitudeEW := [],
    m_altitude := .zero, m_speed := .zero, m_bearing := .zero }

/-- Token `i` is absent (null pointer) or empty. -/
def blank (mem : List Nat) (ps : List (Option Nat)) (i : Nat) : Prop :=
  tokenText mem ps i = none ∨ tokenText mem ps i = some []

/-- The state in which a parser is called on a sentence: the sentence stored at the start
of a zero filled `m_data`, the offset behind it, collecting. -/
def buffered (sentence : List Nat) : State :=
  { fresh with
    m_data := sentence ++ List.replicate (1000 - sentence.length) 0,
    m_offset := sentence.length, m_collect := true }

/-- The memory and the entries the token loop of the parsers leaves for a state (empty when
the loop ends in a fault). -/
def loopResult (s : State) : List Nat × List (Option Nat) :=
  match tokenLoop SEP TOKEN_SLOTS s.m_data (some 0) with
  | .ok r => r
  | .error _ => ([], [])

/-- The state an evaluation ended in (the zero filled constructed state when it ended in a
fault). -/
def outcome (r : Except Fault State) : State :=
  match r with
  | .ok t => t
  | .error _ => fresh

/-- The texts of the entries a token loop stored, in order; `none` for a null pointer. -/
def tokenTexts (r : List Nat × List (Option Nat)) : List (Option (List Nat)) :=
  (List.range r.2.length).map (tokenText r.1 r.2)

/-- The GGA sentence of the spec, with the checksum `*47` it is printed with. -/
def specGGA : List Nat :=
  bytes "$GPGGA,123456,4807.038,N,01131.000,E,1,08,0.9,545.4,M,46.9,M,,*47\r\n"

/-- A GGA sentence with a fix, a valid checksum and a latitude field of 20 characters. -/
def longLatitudeGGA : List Nat :=
  bytes "$GPGGA,123456,12345678901234567890,N,01131.000,E,1,08,0.9,545.4,M,46.9,M,,*53\r\n"

/-- An active RMC sentence with a valid checksum and a latitude field of 20 characters. -/
def longLatitudeRMC : List Nat :=
  bytes "$GPRMC,123519,A,12345678901234567890,N,01131.000,E,022.4,084.4,230394,003.1,W*74\r\n"

/-- A GGA sentence with a valid checksum and four fields more than the standard ones. -/
def manyFieldsGGA : List Nat :=
  bytes "$GPGGA,123456,4807.038,N,01131.000,E,1,08,0.9,545.4,M,46.9,M,,,,,,*4D\r\n"

/-- An RMC sentence with a valid checksum and eight fields more than the standard ones. -/
def manyFieldsRMC : List Nat :=
  bytes "$GPRMC,123519,A,4807.038,N,01131.000,E,022.4,084.4,230394,003.1,W,,,,,,,,*6A\r\n"

/-- A GSV sentence (satellites in view) with a valid checksum. -/
def sentenceGSV : List Nat :=
  bytes "$GPGSV,3,1,11,03,03,111,00,04,15,270,00,06,01,010,00,13,06,292,00*74\r\n"

/-- The GGA sentence of a receiver without a fix, with a valid checksum. -/
def noFixGGA : List Nat := bytes "$GPGGA,,,,,,0,,,,,,,,*66\r\n"

/-- The text tokenized in the spec, as a C string. -/
def specFields : List Nat :=
  bytes "GGA,123456,4807.038,N,01131.000,E,1,08,0.9,545.4,M,46.9,M,," ++ [0]

/-- The invariant of the frame assembler in reachable states: `m_data` has its 1000 bytes, the
offset does not pass the capacity, nothing is stored while not collecting, and while
collecting the buffer starts with the `$` that began the sentence. -/
def Framed (s : State) : Prop :=
  s.m_data.length = DATA_SIZE ∧ s.m_offset ≤ DATA_SIZE ∧
  (s.m_collect = false → s.m_offset = 0) ∧
  (s.m_collect = true → 1 ≤ s.m_offset ∧ s.m_data[0]? = some 36)

/-- An uppercase hexadecimal digit: one of the characters `0`-`9` and `A`-`F`. -/
def upperHex (x : Nat) : Prop := (48 ≤ x ∧ x ≤ 57) ∨ (65 ≤ x ∧ x ≤ 70)

/-- The body of a GLL sentence with a valid checksum, followed by CR LF. -/
def bodyGLL : List Nat := bytes "GPGLL,,,,,,V,N*64\r\n"

/-- The segments obtained by cutting a text at every byte of the delimiter set D (the words
of the tokenizer contract, not the code). -/
def segments (D s : List Nat) : List (List Nat) := s.splitOnP (fun b => decide (b ∈ D))

/-- The tokens the tokenizer contract expects for a text: its segments, without the final
segment when that one is empty. -/
def specTokens (D s : List Nat) : List (List Nat) :=
  if (segments D s).getLast? = some [] then (segments D s).dropLast else segments D s

/-- A GGA sentence with a wrong checksum (`*00` for `*44`). -/
def rejectedGGA : List Nat :=
  bytes "$GPGGA,9999,2222.222,S,03333.000,W,1,08,0.9,100.0,M,46.9,M,,*00\r\n"

/-- A short GGA sentence with a valid checksum, ended by a bare line feed. -/
def shortGGA : List Nat := bytes "$GPGGA,1*4B\n"

/-- A GGA sentence with a valid checksum that ends behind the longitude hemisphere, ended by a
bare line feed: it has tokens 0 to 5 and no fix quality field. -/
def partialGGA : List Nat := bytes "$GPGGA,123456,4807.038,N,01131.000,E*44\n"

/-- An active RMC sentence with a valid checksum, an empty course field and a latitude field
of 20 characters. -/
def longLatitudeNoCourseRMC : List Nat :=
  bytes "$GPRMC,123519,A,12345678901234567890,N,01131.000,E,022.4,,230394,003.1,W*52\r\n"

/-- An active RMC sentence with a valid checksum and an empty course field. -/
def noCourseRMC : List Nat :=
  bytes "$GPRMC,123519,A,4807.038,N,01131.000,E,022.4,,230394,003.1,W*4C\r\n"

/-- The state in which the line feed of a GGA sentence with a valid checksum is about to be
stored. -/
def beforeLineFeed : State :=
  buffered (bytes "$GPGGA,123456,4807.038,N,01131.000,E,1,08,0.9,545.4,M,46.9,M,,*4D\r")

/-- The state in which a parser is called on the GGA sentence of the spec, with a speed and a
bearing from an earlier RMC sentence. -/
def movingGGA : State :=
  { buffered specGGA with m_speed := .atof (bytes "022.4"), m_bearing := .atof (bytes "084.4") }

/-- The state in which a parser is called on an RMC sentence, with an altitude from an earlier
GGA sentence. -/
def climbingRMC : State :=
  { buffered (bytes
      "$GPRMC,123519,A,4807.038,N,01131.000,E,022.4,084.4,230394,003.1,W*6A\r\n") with
    m_altitude := .atofFeet (bytes "545.4") }

/-- An active RMC sentence with a valid checksum, speed `010.0` and course `090.0`. -/
def earlierRMC : List Nat :=
  bytes "$GPRMC,123518,A,4807.030,N,01131.010,E,010.0,090.0,230394,003.1,W*66\r\n"

/-- The state in which the line feed of `partialGGA` is about to be stored: the sentence up
to its checksum is in the buffer, the offset is 39 and the assembler is collecting. -/
def beforePartialLineFeed : State :=
  buffered (bytes "$GPGGA,123456,4807.038,N,01131.000,E*44")

/-- The state in which the line feed of `manyFieldsGGA` is about to be stored. -/
def beforeManyFieldsLineFeed : State :=
  buffered (bytes "$GPGGA,123456,4807.038,N,01131.000,E,1,08,0.9,545.4,M,46.9,M,,,,,,*4D\r")

/-! ## Checksum validation -/

theorem xorAll_lt (B : List Nat) (hB : ∀ b ∈ B, b < 256) : xorAll B < 256 := by
  induction B using List.reverseRecOn with
  | nil => simp [xorAll]
  | append_singleton l a ih =>
    have h1 : xorAll l < 256 := ih (fun b hb => hB b (by simp [hb]))
    have h2 : a < 256 := hB a (by simp)
    simp only [xorAll, List.foldl_append, List.foldl_cons, List.foldl_nil]
    exact Nat.xor_lt_two_pow (n := 8) h1 h2

theorem calcXOR_append (B more : List Nat) (hB : ∀ b ∈ B, b < 256) :
    calcXOR (B ++ more) B.length = .ok (xorAll B) := by
  induction B using List.reverseRecOn generalizing more with
  | nil => simp [calcXOR, xorAll]
  | append_singleton l a ih =>
    have h1 : xorAll l < 256 := xorAll_lt l (fun b hb => hB b (by simp [hb]))
    have h2 : a < 256 := hB a (by simp)
    have ih1 := ih (a :: more) (fun b hb => hB b (by simp [hb]))
    have e : (l ++ [a]) ++ more = l ++ a :: more := by simp
    have hget : (l ++ a :: more)[l.length]? = some a := by
      rw [List.getElem?_append_right (Nat.le_refl _)]; simp
    have hlt : xorAll l ^^^ a < 256 := Nat.xor_lt_two_pow (n := 8) h1 h2
    rw [e, List.length_append, List.length_singleton, calcXOR, ih1]
    simp only [hget, Nat.mod_eq_of_lt hlt]
    simp [xorAll, List.foldl_append]

theorem findStar_scan (B t more : List Nat) (hB : B ≠ []) (ht : 42 ∉ t) (k : Nat)
    (hk : k ≤ t.length) :
    findStar (B ++ 42 :: (t ++ more)) (B.length + k) = .ok B.length := by
  induction k with
  | zero =>
    obtain ⟨n, hn⟩ : ∃ n, B.length = n + 1 := by
      cases B with
      | nil => exact absurd rfl hB
      | cons x xs => exact ⟨xs.length, by simp⟩
    have hget : (B ++ 42 :: (t ++ more))[n + 1]? = some 42 := by
      rw [← hn, List.getElem?_append_right (Nat.le_refl _)]; simp
    rw [Nat.add_zero, hn, findStar, hget]
    simp
  | succ k ih =>
    have hk1 : k < t.length := hk
    have hget : (B ++ 42 :: (t ++ more))[B.length + k + 1]? = some t[k] := by
      rw [List.getElem?_append_right (by omega)]
      have : B.length + k + 1 - B.length = k + 1 := by omega
      rw [this, List.getElem?_cons_succ, List.getElem?_append_left hk1]
      simp
    have hne : t[k] ≠ 42 := fun h => ht (h ▸ List.getElem_mem hk1)
    have e : B.length + (k + 1) = (B.length + k) + 1 := by omega
    rw [e, findStar, hget]
    simp [hne, ih (by omega)]

theorem sub1_pos (n : Nat) (h : 0 < n) : sub1 n = n - 1 := by
  unfold sub1; split <;> omega

theorem checkXOR_of_layout (B : List Nat) (h1 h2 : Nat) (rest more : List Nat)
    (hB : B ≠ []) (hbytes : ∀ b ∈ B, b < 256) (hstar : 42 ∉ h1 :: h2 :: rest) :
    checkXOR (B ++ 42 :: (h1 :: h2 :: rest ++ more)) (B.length + (rest.length + 2) + 1)
      = .ok (decide ([h1, h2] = hex2 (xorAll B))) := by
  have hpos : B.length ≠ 0 := by
    cases B with
    | nil => exact absurd rfl hB
    | cons x xs => simp
  have hfind := findStar_scan B (h1 :: h2 :: rest) more hB hstar (rest.length + 2) (by simp)
  have hcalc := calcXOR_append B (42 :: (h1 :: h2 :: rest ++ more)) hbytes
  have hdrop : (List.drop (B.length + 1) (B ++ 42 :: (h1 :: h2 :: rest ++ more))).take 2
      = [h1, h2] := by
    have : B ++ 42 :: (h1 :: h2 :: rest ++ more) = (B ++ [42]) ++ (h1 :: h2 :: (rest ++ more)) := by
      simp
    rw [this, List.drop_left' (by simp)]
    simp
  have hin : B.length + 1 + (hex2 (xorAll B)).length
      ≤ (B ++ 42 :: (h1 :: h2 :: rest ++ more)).length := by
    simp [hex2]; omega
  unfold checkXOR
  rw [sub1_pos _ (by omega), Nat.add_sub_cancel, hfind]
  simp only [hpos, if_false]
  rw [hcalc]
  simp only [memcmp, hin, if_true]
  have hl : (hex2 (xorAll B)).length = 2 := by simp [hex2]
  rw [hl, hdrop]

theorem findStar_clear (t more : List Nat) (ht : 42 ∉ t) (k : Nat) (hk : k ≤ t.length) :
    findStar (42 :: (t ++ more)) k = .ok 0 := by
  induction k with
  | zero => rfl
  | succ k ih =>
    have hk1 : k < t.length := hk
    have hget : (42 :: (t ++ more))[k + 1]? = some t[k] := by
      rw [List.getElem?_cons_succ, List.getElem?_append_left hk1]
      simp
    have hne : t[k] ≠ 42 := fun h => ht (h ▸ List.getElem_mem hk1)
    rw [findStar, hget]
    simp [hne, ih (by omega)]

/-- A body that starts with its only `*` is rejected: the scan stops before index 0. -/
theorem checkXOR_star_first (h1 h2 : Nat) (rest more : List Nat)
    (hstar : 42 ∉ h1 :: h2 :: rest) :
    checkXOR (42 :: (h1 :: h2 :: rest ++ more)) (rest.length + 2 + 1) = .ok false := by
  unfold checkXOR
  rw [sub1_pos _ (by omega), Nat.add_sub_cancel,
    findStar_clear (h1 :: h2 :: rest) more hstar (rest.length + 2) (by simp)]
  rfl

/-- Claim C1 (as amended): for a body `B*HH` followed by `rest`, where neither `HH` nor `rest`
contains a `*`, so that the shown `*` is the last one, `checkXOR` returns, and returns true
exactly when B is not empty and HH is the two digit uppercase hexadecimal text of the XOR of
the bytes of B. For an empty B the body is rejected, whatever HH and rest are. -/
theorem checkXOR_correct (B : List Nat) (h1 h2 : Nat) (rest more : List Nat)
    (hbytes : ∀ b ∈ B, b < 256) (hstar : 42 ∉ [h1, h2] ++ rest) :
    ∃ r, checkXOR ((B ++ [42] ++ [h1, h2] ++ rest) ++ more) (B ++ [42] ++ [h1, h2] ++ rest).length
          = .ok r ∧ (r = true ↔ B ≠ [] ∧ [h1, h2] = hex2 (xorAll B)) := by
  have hstar1 : 42 ∉ h1 :: h2 :: rest := by simpa using hstar
  by_cases hB : B = []
  · subst hB
    refine ⟨false, ?_, by simp⟩
    have h := checkXOR_star_first h1 h2 rest more hstar1
    have e1 : (([] : List Nat) ++ [42] ++ [h1, h2] ++ rest) ++ more
        = 42 :: (h1 :: h2 :: rest ++ more) := by simp
    have e2 : (([] : List Nat) ++ [42] ++ [h1, h2] ++ rest).length = rest.length + 2 + 1 := by
      simp
    rw [e1, e2]; exact h
  · refine ⟨decide ([h1, h2] = hex2 (xorAll B)), ?_, by simp [hB]⟩
    have h := checkXOR_of_layout B h1 h2 rest more hB hbytes hstar1
    have e1 : (B ++ [42] ++ [h1, h2] ++ rest) ++ more
        = B ++ 42 :: (h1 :: h2 :: rest ++ more) := by simp
    have e2 : (B ++ [42] ++ [h1, h2] ++ rest).length = B.length + (rest.length + 2) + 1 := by
      simp; omega
    rw [e1, e2]; exact h

theorem checkXOR_correct_witness :
    (∃ r, checkXOR ((bytes "GPGLL,,,,,,V,N" ++ [42] ++ [54, 52] ++ [13, 10]) ++ [0, 0])
          (bytes "GPGLL,,,,,,V,N" ++ [42] ++ [54, 52] ++ [13, 10]).length = .ok r ∧
        (r = true ↔ bytes "GPGLL,,,,,,V,N" ≠ [] ∧
          [54, 52] = hex2 (xorAll (bytes "GPGLL,,,,,,V,N")))) ∧
    (∃ r, checkXOR (([] ++ [42] ++ [48, 48] ++ [13, 10]) ++ [0, 0])
          (([] : List Nat) ++ [42] ++ [48, 48] ++ [13, 10]).length = .ok r ∧
        (r = true ↔ ([] : List Nat) ≠ [] ∧ [48, 48] = hex2 (xorAll []))) :=
  ⟨checkXOR_correct (bytes "GPGLL,,,,,,V,N") 54 52 [13, 10] [0, 0] (by decide) (by decide),
    checkXOR_correct [] 48 48 [13, 10] [0, 0] (by decide) (by decide)⟩

/-- Claim C1 as stated fails for an empty B: the body `*00` followed by CR LF carries the
checksum text `00` of the XOR of no bytes, and `checkXOR` returns false, because a `*` at
index 0 counts as absent. It also fails when HH itself contains a `*`: in `A**6B` the `*`
shown after B = `A` is followed by HH = `*6`, which is not the text `41` of B, and `checkXOR`
returns true, because it validates against the last `*`. -/
theorem checkXOR_empty_body :
    (42 ∉ bytes "\r\n" ∧ bytes "00" = hex2 (xorAll []) ∧
      checkXOR ([] ++ [42] ++ bytes "00" ++ bytes "\r\n") 5 = .ok false) ∧
    (42 ∉ bytes "B" ∧ bytes "*6" ≠ hex2 (xorAll (bytes "A")) ∧
      checkXOR (bytes "A" ++ [42] ++ bytes "*6" ++ bytes "B") 5 = .ok true) := by
  decide

/-! ## Frame assembly -/

theorem interpret_append (s : State) (a b : List Nat) :
    interpret s (a ++ b) =
      match interpret s a with
      | .ok t => interpret t b
      | .error e => .error e := by
  induction a generalizing s with
  | nil => simp [interpret]
  | cons c rest ih =>
    simp only [List.cons_append, interpret]
    cases h : interpretByte s c with
    | error e => simp
    | ok s1 => simp [ih]

/-- Claim C2: chunk boundaries do not matter. Feeding `a ++ b` gives the same result, the
complete state or the same fault, as feeding `a` and then `b`; a chunk of length zero
changes nothing. -/
theorem interpret_chunks (s : State) (a b : List Nat) :
    interpret s (a ++ b) = (interpret s a).bind (fun t => interpret t b) ∧
      interpret s [] = .ok s := by
  refine ⟨?_, rfl⟩
  rw [interpret_append]
  cases interpret s a <;> rfl

theorem completeSentence_reset (s t : State) (h : completeSentence s = .ok t) :
    t.m_offset = 0 ∧ t.m_collect = false := by
  unfold completeSentence at h
  cases hx : checkXOR (s.m_data.drop 1) (sub1 s.m_offset) with
  | error e => rw [hx] at h; cases h
  | ok ret =>
    rw [hx] at h
    cases hd : (if ret = true then dispatch s else Except.ok s) with
    | error e => simp only [hd] at h; cases h
    | ok s1 =>
      simp only [hd] at h
      cases h; exact ⟨rfl, rfl⟩

theorem interpretByte_idle (s t : State) (c : Nat) (hs : Idle s)
    (h : interpretByte s c = .ok t) : Idle t := by
  unfold interpretByte at h
  by_cases hc : c = 36
  · simp only [hc, if_true] at h
    split at h
    · simp only [show (36 : Nat) ≠ 10 by decide, if_false] at h
      cases h
      intro hf; simp [store] at hf
    · cases h
  · simp only [hc, if_false] at h
    by_cases hcol : s.m_collect = true
    · simp only [hcol, if_true] at h
      split at h
      · split at h
        · have := completeSentence_reset _ _ h
          intro _; exact this.1
        · cases h
          intro hf; simp [store, hcol] at hf
      · cases h
    · simp only [hcol] at h
      cases h
      exact hs

theorem interpret_idle (s t : State) (data : List Nat) (hs : Idle s)
    (h : interpret s data = .ok t) : Idle t := by
  induction data generalizing s with
  | nil => simp [interpret] at h; cases h; exact hs
  | cons c rest ih =>
    simp only [interpret] at h
    cases h1 : interpretByte s c with
    | error e => simp [h1] at h
    | ok s1 =>
      simp only [h1] at h
      exact ih s1 (interpretByte_idle s s1 c hs h1) h

theorem reachable_idle (s : State) (h : Reachable s) : Idle s := by
  induction h with
  | init s hi => intro _; exact hi.2.1
  | feed s t data _ hf ih => exact interpret_idle s t data ih hf

theorem interpretByte_lf (s t : State) (hs : Idle s) (h : interpretByte s 10 = .ok t) :
    t.m_offset = 0 ∧ t.m_collect = false := by
  unfold interpretByte at h
  simp only [show (10 : Nat) ≠ 36 by decide, if_false, if_true] at h
  by_cases hcol : s.m_collect = true
  · simp only [hcol, if_true] at h
    split at h
    · exact completeSentence_reset _ _ h
    · cases h
  · simp only [hcol] at h
    cases h
    have hf : s.m_collect = false := by simpa using hcol
    exact ⟨hs hf, hf⟩

theorem completeSentence_rejected (s : State)
    (h : checkXOR (s.m_data.drop 1) (sub1 s.m_offset) = .ok false ∨
      (checkXOR (s.m_data.drop 1) (sub1 s.m_offset) = .ok true ∧
        memcmp GGA s.m_data 3 = .ok false ∧ memcmp RMC s.m_data 3 = .ok false)) :
    completeSentence s = .ok (reset s) := by
  unfold completeSentence
  rcases h with hx | ⟨hx, hg, hr⟩
  · rw [hx]; rfl
  · rw [hx]
    simp only [if_true, dispatch, hg, hr]

theorem interpretByte_collecting (s : State) (hcol : s.m_collect = true)
    (ho : s.m_offset < s.m_data.length) :
    interpretByte s 10 = completeSentence (store s 10) := by
  unfold interpretByte
  simp only [show (10 : Nat) ≠ 36 by decide, if_false, if_true, hcol, ho]

theorem interpretByte_not_collecting (s : State) (hcol : s.m_collect = false) :
    interpretByte s 10 = .ok s := by
  unfold interpretByte
  simp [hcol]

/-- The reset after a line feed, as far as it holds: in every state reachable from the
constructed one, a step of `interpret` on a line feed that returns ends with offset 0 and the
collecting flag off, and the step does return when nothing is being collected and when
`checkXOR` rejects the sentence. A step that dispatches to a parser need not return. -/
theorem lf_resets (s : State) (hs : Reachable s) :
    (∀ t, interpretByte s 10 = .ok t → t.m_offset = 0 ∧ t.m_collect = false) ∧
    (s.m_collect = false → interpretByte s 10 = .ok s) ∧
    (s.m_collect = true → s.m_offset < s.m_data.length →
      checkXOR ((store s 10).m_data.drop 1) (sub1 (store s 10).m_offset) = .ok false →
      interpretByte s 10 = .ok (reset (store s 10))) := by
  refine ⟨fun t h => interpretByte_lf s t (reachable_idle s hs) h,
    interpretByte_not_collecting s, ?_⟩
  intro hcol ho hx
  rw [interpretByte_collecting s hcol ho]
  exact completeSentence_rejected _ (Or.inl hx)

set_option maxRecDepth 100000 in
theorem lf_resets_witness :
    Reachable (buffered (bytes "$GP")) ∧
      interpretByte (buffered (bytes "$GP")) 10 = .ok (reset (buffered (bytes "$GP\n"))) ∧
      (reset (buffered (bytes "$GP\n"))).m_offset = 0 ∧
      (reset (buffered (bytes "$GP\n"))).m_collect = false :=
  ⟨Reachable.feed fresh _ (bytes "$GP") (Reachable.init fresh (by decide)) (by decide),
    by decide,
    (lf_resets (buffered (bytes "$GP"))
      (Reachable.feed fresh _ (bytes "$GP") (Reachable.init fresh (by decide))
        (by decide))).1
      (reset (buffered (bytes "$GP\n"))) (by decide)⟩

set_option maxRecDepth 100000 in
/-- A sentence fed in two chunks, cut inside the latitude field, and fed in one chunk. -/
theorem interpret_split_sentence :
    (interpret fresh (bytes "$GPGGA,123456,480")).bind
        (fun t => interpret t (bytes "7.038,N,01131.000,E,1,08,0.9,545.4,M,46.9,M,,*4D\r\n"))
      = interpret fresh
          (bytes "$GPGGA,123456,4807.038,N,01131.000,E,1,08,0.9,545.4,M,46.9,M,,*4D\r\n") := by
  decide

/-! ## The tokenizer -/

theorem strcspn_clean (sep tok : List Nat) (d : Nat) (post : List Nat)
    (htok : ∀ b ∈ tok, b ≠ 0 ∧ b ∉ sep) (hd : d = 0 ∨ d ∈ sep) :
    strcspn (tok ++ d :: post) sep = .ok tok.length := by
  induction tok with
  | nil => simp [strcspn, hd]
  | cons b rest ih =>
    have hb := htok b (by simp)
    have ih1 := ih (fun x hx => htok x (by simp [hx]))
    simp [strcspn, hb.1, hb.2, ih1]

theorem strcspn_dirty (sep cur : List Nat) (h : ∀ b ∈ cur, b ≠ 0 ∧ b ∉ sep) :
    strcspn cur sep = .error .readPastEnd := by
  induction cur with
  | nil => simp [strcspn]
  | cons b rest ih =>
    have hb := h b (by simp)
    have ih1 := ih (fun x hx => h x (by simp [hx]))
    simp [strcspn, hb.1, hb.2, ih1]

/-- Every text either contains a first byte that is NUL or a delimiter, or has none. -/
theorem first_stop (sep cur : List Nat) :
    (∃ tok d post, cur = tok ++ d :: post ∧ (∀ b ∈ tok, b ≠ 0 ∧ b ∉ sep) ∧ (d = 0 ∨ d ∈ sep)) ∨
      (∀ b ∈ cur, b ≠ 0 ∧ b ∉ sep) := by
  induction cur with
  | nil => right; simp
  | cons b rest ih =>
    by_cases hb : b = 0 ∨ b ∈ sep
    · left; exact ⟨[], b, rest, by simp, by simp, hb⟩
    · have hb1 : b ≠ 0 ∧ b ∉ sep := by
        constructor
        · exact fun h => hb (Or.inl h)
        · exact fun h => hb (Or.inr h)
      rcases ih with ⟨tok, d, post, he, ht, hd⟩ | hall
      · left
        refine ⟨b :: tok, d, post, by simp [he], ?_, hd⟩
        intro x hx
        rcases List.mem_cons.mp hx with rfl | hx
        · exact hb1
        · exact ht x hx
      · right
        intro x hx
        rcases List.mem_cons.mp hx with rfl | hx
        · exact hb1
        · exact hall x hx

theorem cstrOf_clean (tok post : List Nat) (htok : ∀ b ∈ tok, b ≠ 0) :
    cstrOf (tok ++ 0 :: post) = .ok tok := by
  induction tok with
  | nil => simp [cstrOf]
  | cons b rest ih =>
    have hb := htok b (by simp)
    have ih1 := ih (fun x hx => htok x (by simp [hx]))
    simp [cstrOf, hb, ih1]

theorem cstr_clean (pre tok post : List Nat) (htok : ∀ b ∈ tok, b ≠ 0) :
    cstr (pre ++ tok ++ 0 :: post) pre.length = .ok tok := by
  unfold cstr
  rw [List.append_assoc, List.drop_left]
  exact cstrOf_clean tok post htok

/-- Case of `mystrsep` at the end of the text: the cursor points at a NUL. -/
theorem mystrsep_nul (sep pre post : List Nat) :
    mystrsep (pre ++ 0 :: post) (some pre.length) sep
      = .ok (none, pre ++ 0 :: post, some pre.length) := by
  have hget : (pre ++ 0 :: post)[pre.length]? = some 0 := by
    rw [List.getElem?_append_right (Nat.le_refl _)]; simp
  simp [mystrsep, hget]

/-- Case of `mystrsep` with no stop byte left: the scan leaves the allocation. -/
theorem mystrsep_dirty (sep pre cur : List Nat) (h : ∀ b ∈ cur, b ≠ 0 ∧ b ∉ sep) :
    mystrsep (pre ++ cur) (some pre.length) sep = .error .readPastEnd := by
  cases cur with
  | nil => simp [mystrsep]
  | cons b rest =>
    have hget : (pre ++ b :: rest)[pre.length]? = some b := by
      rw [List.getElem?_append_right (Nat.le_refl _)]; simp
    have hb := h b (by simp)
    have hs := strcspn_dirty sep (b :: rest) h
    simp only [mystrsep, hget, hb.1, if_false, List.drop_left, hs]

/-- Case of `mystrsep` with a token ended by a delimiter: the delimiter becomes NUL and the
cursor moves behind it. -/
theorem mystrsep_delim (sep pre tok : List Nat) (d : Nat) (post : List Nat)
    (htok : ∀ b ∈ tok, b ≠ 0 ∧ b ∉ sep) (hd : d ∈ sep) (hd0 : d ≠ 0) :
    mystrsep (pre ++ tok ++ d :: post) (some pre.length) sep
      = .ok (some pre.length, pre ++ tok ++ 0 :: post, some (pre.length + tok.length + 1)) := by
  have hfirst : ∃ b, (pre ++ tok ++ d :: post)[pre.length]? = some b ∧ b ≠ 0 := by
    cases tok with
    | nil =>
      refine ⟨d, ?_, hd0⟩
      rw [List.append_nil, List.getElem?_append_right (Nat.le_refl _)]; simp
    | cons b rest =>
      refine ⟨b, ?_, (htok b (by simp)).1⟩
      rw [List.append_assoc, List.getElem?_append_right (Nat.le_refl _)]; simp
  obtain ⟨b, hget, hb⟩ := hfirst
  have hs : strcspn (List.drop pre.length (pre ++ tok ++ d :: post)) sep = .ok tok.length := by
    rw [List.append_assoc, List.drop_left]
    exact strcspn_clean sep tok d post htok (Or.inr hd)
  have hget2 : (pre ++ tok ++ d :: post)[pre.length + tok.length]? = some d := by
    rw [List.getElem?_append_right (by simp)]; simp
  have hset : (pre ++ tok ++ d :: post).set (pre.length + tok.length) 0
      = pre ++ tok ++ 0 :: post := by
    rw [List.set_append_right _ _ (by simp)]; simp
  simp only [mystrsep, hget, hb, if_false, hs, hget2, hd0, ne_eq, not_false_eq_true, if_true,
    hset]

/-- Case of `mystrsep` with a non-empty token ended by a NUL: nothing is written and the
cursor stops on the NUL. -/
theorem mystrsep_last (sep pre tok post : List Nat) (hne : tok ≠ [])
    (htok : ∀ b ∈ tok, b ≠ 0 ∧ b ∉ sep) :
    mystrsep (pre ++ tok ++ 0 :: post) (some pre.length) sep
      = .ok (some pre.length, pre ++ tok ++ 0 :: post, some (pre.length + tok.length)) := by
  obtain ⟨b, rest, rfl⟩ : ∃ b rest, tok = b :: rest := by
    cases tok with
    | nil => exact absurd rfl hne
    | cons b rest => exact ⟨b, rest, rfl⟩
  have hget : (pre ++ (b :: rest) ++ 0 :: post)[pre.length]? = some b := by
    rw [List.append_assoc, List.getElem?_append_right (Nat.le_refl _)]; simp
  have hb := (htok b (by simp)).1
  have hs : strcspn (List.drop pre.length (pre ++ (b :: rest) ++ 0 :: post)) sep
      = .ok (b :: rest).length := by
    rw [List.append_assoc, List.drop_left]
    exact strcspn_clean sep (b :: rest) 0 post htok (Or.inl rfl)
  have hget2 : (pre ++ (b :: rest) ++ 0 :: post)[pre.length + (b :: rest).length]? = some 0 := by
    rw [List.getElem?_append_right (by simp)]; simp
  simp only [mystrsep, hget, hb, if_false, hs, hget2, ne_eq, not_true_eq_false]

theorem tokenLoop_zero (sep mem : List Nat) (str : Option Nat)
    (r : List Nat × List (Option Nat)) : tokenLoop sep 0 mem str ≠ .ok r := by
  rw [tokenLoop]
  cases mystrsep mem str sep with
  | error e => simp
  | ok x => simp

theorem tokenLoop_fault (sep mem : List Nat) (str : Option Nat) (k : Nat) (e : Fault)
    (h : mystrsep mem str sep = .error e) : tokenLoop sep k mem str = .error e := by
  rw [tokenLoop, h]

theorem tokenLoop_none (sep mem mem1 : List Nat) (str str1 : Option Nat) (k : Nat)
    (h : mystrsep mem str sep = .ok (none, mem1, str1)) :
    tokenLoop sep (k + 1) mem str = .ok (mem1, [none]) := by
  rw [tokenLoop, h]

theorem tokenLoop_some (sep mem mem1 : List Nat) (str str1 : Option Nat) (k q : Nat)
    (h : mystrsep mem str sep = .ok (some q, mem1, str1)) :
    tokenLoop sep (k + 1) mem str =
      match tokenLoop sep k mem1 str1 with
      | .error e => .error e
      | .ok (mem2, ps) => .ok (mem2, some q :: ps) := by
  rw [tokenLoop, h]

/-- What the token loop leaves behind. The bytes before the cursor are untouched and the
length of the memory is kept; the stored entries are pointers followed by one null
pointer; every stored pointer is the start of a C string that ends inside the memory; a
loop started on a NUL stores the null pointer only and writes nothing. -/
theorem tokenLoop_inv (sep : List Nat) (k : Nat) :
    ∀ (pre cur mem1 : List Nat) (ps : List (Option Nat)),
      tokenLoop sep k (pre ++ cur) (some pre.length) = .ok (mem1, ps) →
      ∃ qs cur1, mem1 = pre ++ cur1 ∧ cur1.length = cur.length ∧
        ps = qs.map some ++ [none] ∧ (∀ q ∈ qs, ∃ t, cstr mem1 q = .ok t) ∧
        (∀ post, cur = 0 :: post → cur1 = cur ∧ qs = []) := by
  induction k with
  | zero => intro pre cur mem1 ps h; exact absurd h (tokenLoop_zero _ _ _ _)
  | succ k ih =>
    intro pre cur mem1 ps h
    rcases first_stop sep cur with ⟨tok, d, post, rfl, htok, hd⟩ | hall
    · by_cases hd0 : d = 0
      · subst hd0
        by_cases hne : tok = []
        · subst hne
          rw [List.nil_append, tokenLoop_none _ _ _ _ _ _ (mystrsep_nul sep pre post)] at h
          cases h
          exact ⟨[], 0 :: post, by simp, by simp, by simp, by simp, by simp⟩
        · have hstep := mystrsep_last sep pre tok post hne htok
          rw [← List.append_assoc, tokenLoop_some _ _ _ _ _ _ _ hstep] at h
          have hlen : pre.length + tok.length = (pre ++ tok).length := by simp
          rw [hlen] at h
          cases hrec : tokenLoop sep k (pre ++ tok ++ 0 :: post) (some (pre ++ tok).length) with
          | error e => rw [hrec] at h; cases h
          | ok r =>
            obtain ⟨mem2, ps2⟩ := r
            rw [hrec] at h
            cases h
            obtain ⟨qs, cur1, hm, _, hps, _, hnul⟩ := ih (pre ++ tok) (0 :: post) mem1 ps2 hrec
            obtain ⟨hc, hq⟩ := hnul post rfl
            subst hc hq
            refine ⟨[pre.length], tok ++ 0 :: post, by simp [hm], by simp, by simp [hps], ?_, ?_⟩
            · intro q hq
              have hq1 : q = pre.length := by simpa using hq
              subst hq1
              exact ⟨tok, by rw [hm]; exact cstr_clean pre tok post (fun b hb => (htok b hb).1)⟩
            · intro post1 he
              cases tok with
              | nil => exact absurd rfl hne
              | cons b rest =>
                have hb := (htok b (by simp)).1
                simp at he
                exact absurd he.1 hb
      · have hdsep : d ∈ sep := by
          rcases hd with h0 | hs
          · exact absurd h0 hd0
          · exact hs
        have hstep := mystrsep_delim sep pre tok d post htok hdsep hd0
        rw [← List.append_assoc, tokenLoop_some _ _ _ _ _ _ _ hstep] at h
        have hlen : pre.length + tok.length + 1 = (pre ++ tok ++ [0]).length := by
          simp only [List.length_append, List.length_singleton]
        have hmem : pre ++ tok ++ 0 :: post = (pre ++ tok ++ [0]) ++ post := by simp
        rw [hlen, hmem] at h
        cases hrec : tokenLoop sep k ((pre ++ tok ++ [0]) ++ post)
            (some (pre ++ tok ++ [0]).length) with
        | error e => rw [hrec] at h; cases h
        | ok r =>
          obtain ⟨mem2, ps2⟩ := r
          rw [hrec] at h
          cases h
          obtain ⟨qs, cur1, hm, hl, hps, hcs, _⟩ := ih (pre ++ tok ++ [0]) post mem1 ps2 hrec
          refine ⟨pre.length :: qs, tok ++ 0 :: cur1, by simp [hm], by simp [hl],
            by simp [hps], ?_, ?_⟩
          · intro q hq
            rcases List.mem_cons.mp hq with rfl | hq
            · refine ⟨tok, ?_⟩
              have : mem1 = pre ++ tok ++ 0 :: cur1 := by simp [hm]
              rw [this]
              exact cstr_clean pre tok cur1 (fun b hb => (htok b hb).1)
            · exact hcs q hq
          · intro post1 he
            cases tok with
            | nil =>
              simp at he
              exact absurd he.1 hd0
            | cons b rest =>
              have hb := (htok b (by simp)).1
              simp at he
              exact absurd he.1 hb
    · rw [tokenLoop_fault _ _ _ _ _ (mystrsep_dirty sep pre cur hall)] at h
      cases h

theorem entry_tokens (qs : List Nat) (i : Nat) : entry (qs.map some ++ [none]) i = qs[i]? := by
  unfold entry
  rw [List.getD_eq_getElem?_getD]
  by_cases hi : i < qs.length
  · rw [List.getElem?_append_left (by simpa using hi)]
    simp [List.getElem?_eq_getElem hi]
  · have hi1 : qs.length ≤ i := Nat.le_of_not_lt hi
    rw [List.getElem?_append_right (by simpa using hi1), List.getElem?_eq_none hi1]
    cases h : [none (α := Nat)][i - (List.map some qs).length]? with
    | none => rfl
    | some x =>
      have := List.getElem?_mem h
      simp at this
      simp [this]

/-- The entries of a completed token loop: the memory keeps its length, a stored pointer
starts a terminated C string, and no null pointer comes before a stored pointer. -/
theorem tokenLoop_entries (sep data mem : List Nat) (k : Nat) (ps : List (Option Nat))
    (h : tokenLoop sep k data (some 0) = .ok (mem, ps)) :
    mem.length = data.length ∧
      (∀ i q, entry ps i = some q → ∃ t, cstr mem q = .ok t) ∧
      (∀ i j q, entry ps i = some q → j ≤ i → ∃ r, entry ps j = some r) := by
  obtain ⟨qs, cur1, hm, hl, hps, hcs, _⟩ := tokenLoop_inv sep k [] data mem ps (by simpa using h)
  subst hps
  refine ⟨by simp [hm, hl], ?_, ?_⟩
  · intro i q hq
    rw [entry_tokens] at hq
    exact hcs q (List.getElem?_mem hq)
  · intro i j q hq hji
    rw [entry_tokens] at hq
    rw [entry_tokens]
    have hi : i < qs.length := by
      by_contra hc
      rw [List.getElem?_eq_none (Nat.le_of_not_lt hc)] at hq
      cases hq
    exact ⟨qs[j], List.getElem?_eq_getElem (by omega)⟩

theorem tokenText_some (mem : List Nat) (ps : List (Option Nat)) (i : Nat) (t : List Nat)
    (h : tokenText mem ps i = some t) : ∃ p, entry ps i = some p ∧ cstr mem p = .ok t := by
  unfold tokenText at h
  cases he : entry ps i with
  | none => simp [he] at h
  | some p =>
    simp only [he] at h
    cases hc : cstr mem p with
    | error e => simp [hc] at h
    | ok u =>
      simp only [hc, Option.some.injEq] at h
      subst h
      exact ⟨p, rfl, hc⟩

theorem tokenText_of (mem : List Nat) (ps : List (Option Nat)) (i p : Nat) (t : List Nat)
    (he : entry ps i = some p) (hc : cstr mem p = .ok t) : tokenText mem ps i = some t := by
  simp [tokenText, he, hc]

theorem tokenText_none (mem : List Nat) (ps : List (Option Nat)) (i : Nat)
    (he : entry ps i = none) : tokenText mem ps i = none := by
  simp [tokenText, he]

/-! ## The tokenizer against its contract -/

/-- The expected tokens of a text with an empty field, a CR LF pair and an open end. -/
theorem specTokens_example :
    specTokens SEP (bytes "GGA,1,,N\r\nX")
      = [bytes "GGA", bytes "1", [], bytes "N", [], bytes "X"] ∧
    specTokens SEP (bytes "GGA,1,") = [bytes "GGA", bytes "1"] := by
  decide

/-! ## The sentence parsers -/

theorem anyEmpty_four (mem : List Nat) (p2 p3 p4 p5 : Nat) (t2 t3 t4 t5 : List Nat)
    (h2 : cstr mem p2 = .ok t2) (h3 : cstr mem p3 = .ok t3) (h4 : cstr mem p4 = .ok t4)
    (h5 : cstr mem p5 = .ok t5) :
    anyEmpty mem [p2, p3, p4, p5] = .ok (decide (t2 = [] ∨ t3 = [] ∨ t4 = [] ∨ t5 = [])) := by
  simp only [anyEmpty, strlen, h2, h3, h4, h5, List.length_eq_zero]
  by_cases e2 : t2 = [] <;> by_cases e3 : t3 = [] <;> by_cases e4 : t4 = [] <;>
    by_cases e5 : t5 = [] <;> simp [e2, e3, e4, e5]

/-- The parser returns at its first test when one of the four position entries is null. -/
theorem processGGA_absent (s : State) (mem : List Nat) (ps : List (Option Nat))
    (hloop : tokenLoop SEP TOKEN_SLOTS s.m_data (some 0) = .ok (mem, ps))
    (h : entry ps 2 = none ∨ entry ps 3 = none ∨ entry ps 4 = none ∨ entry ps 5 = none) :
    processGGA s = .ok { s with m_data := mem } := by
  unfold processGGA
  rw [hloop]
  cases h2 : entry ps 2 <;> cases h3 : entry ps 3 <;> cases h4 : entry ps 4 <;>
    cases h5 : entry ps 5 <;> simp_all

theorem processRMC_absent (s : State) (mem : List Nat) (ps : List (Option Nat))
    (hloop : tokenLoop SEP TOKEN_SLOTS s.m_data (some 0) = .ok (mem, ps))
    (h : entry ps 3 = none ∨ entry ps 4 = none ∨ entry ps 5 = none ∨ entry ps 6 = none) :
    processRMC s = .ok { s with m_data := mem } := by
  unfold processRMC
  rw [hloop]
  cases h3 : entry ps 3 <;> cases h4 : entry ps 4 <;> cases h5 : entry ps 5 <;>
    cases h6 : entry ps 6 <;> simp_all

/-- The parser `processGGA` past the token loop, with the four position entries present:
what is left is the test for empty texts, the comparison of token 6 and the copies. -/
theorem processGGA_present (s : State) (mem : List Nat) (ps : List (Option Nat))
    (p2 p3 p4 p5 : Nat)
    (hloop : tokenLoop SEP TOKEN_SLOTS s.m_data (some 0) = .ok (mem, ps))
    (h2 : entry ps 2 = some p2) (h3 : entry ps 3 = some p3) (h4 : entry ps 4 = some p4)
    (h5 : entry ps 5 = some p5) :
    processGGA s =
      match anyEmpty mem [p2, p3, p4, p5] with
      | .error e => .error e
      | .ok true => .ok { s with m_data := mem }
      | .ok false =>
        match strcmp mem (entry ps 6) [48] with
        | .error e => .error e
        | .ok true => .ok { s with m_data := mem }
        | .ok false =>
          match strcpy COORD_SIZE mem p2 with
          | .error e => .error e
          | .ok lat =>
            match strcpy HEMI_SIZE mem p3 with
            | .error e => .error e
            | .ok ns =>
              match strcpy COORD_SIZE mem p4 with
              | .error e => .error e
              | .ok lon =>
                match strcpy HEMI_SIZE mem p5 with
                | .error e => .error e
                | .ok ew =>
                  match entry ps 9 with
                  | none =>
                    .ok { s with m_data := mem, m_latitude := lat, m_latitudeNS := ns,
                                 m_longitude := lon, m_longitudeEW := ew }
                  | some p9 =>
                    match cstr mem p9 with
                    | .error e => .error e
                    | .ok t9 =>
                      if t9.length > 0 then
                        .ok { s with m_data := mem, m_latitude := lat, m_latitudeNS := ns,
                                     m_longitude := lon, m_longitudeEW := ew,
                                     m_altitude := .atofFeet t9 }
                      else
                        .ok { s with m_data := mem, m_latitude := lat, m_latitudeNS := ns,
                                     m_longitude := lon, m_longitudeEW := ew } := by
  unfold processGGA
  rw [hloop]
  simp only [h2, h3, h4, h5]

theorem processRMC_present (s : State) (mem : List Nat) (ps : List (Option Nat))
    (p3 p4 p5 p6 : Nat)
    (hloop : tokenLoop SEP TOKEN_SLOTS s.m_data (some 0) = .ok (mem, ps))
    (h3 : entry ps 3 = some p3) (h4 : entry ps 4 = some p4) (h5 : entry ps 5 = some p5)
    (h6 : entry ps 6 = some p6) :
    processRMC s =
      match anyEmpty mem [p3, p4, p5, p6] with
      | .error e => .error e
      | .ok true => .ok { s with m_data := mem }
      | .ok false =>
        match strcmp mem (entry ps 2) [65] with
        | .error e => .error e
        | .ok false => .ok { s with m_data := mem }
        | .ok true =>
          match strcpy COORD_SIZE mem p3 with
          | .error e => .error e
          | .ok lat =>
            match strcpy HEMI_SIZE mem p4 with
            | .error e => .error e
            | .ok ns =>
              match strcpy COORD_SIZE mem p5 with
              | .error e => .error e
              | .ok lon =>
                match strcpy HEMI_SIZE mem p6 with
                | .error e => .error e
                | .ok ew =>
                  match entry ps 7, entry ps 8 with
                  | some p7, some p8 =>
                    match cstr mem p7 with
                    | .error e => .error e
                    | .ok t7 =>
                      if t7.length > 0 then
                        match cstr mem p8 with
                        | .error e => .error e
                        | .ok t8 =>
                          if t8.length > 0 then
                            .ok { s with m_data := mem, m_latitude := lat, m_latitudeNS := ns,
                                         m_longitude := lon, m_longitudeEW := ew,
                                         m_bearing := .atof t8, m_speed := .atof t7 }
                          else
                            .ok { s with m_data := mem, m_latitude := lat, m_latitudeNS := ns,
                                         m_longitude := lon, m_longitudeEW := ew }
                      else
                        .ok { s with m_data := mem, m_latitude := lat, m_latitudeNS := ns,
                                     m_longitude := lon, m_longitudeEW := ew }
                  | _, _ =>
                    .ok { s with m_data := mem, m_latitude := lat, m_latitudeNS := ns,
                                 m_longitude := lon, m_longitudeEW := ew }
    := by
  unfold processRMC
  rw [hloop]
  simp only [h3, h4, h5, h6]

theorem strcmp_text (mem : List Nat) (ps : List (Option Nat)) (i p : Nat) (t lit : List Nat)
    (he : entry ps i = some p) (hc : cstr mem p = .ok t) :
    strcmp mem (entry ps i) lit = .ok (decide (t = lit)) := by
  simp [strcmp, he, hc]

theorem blank_text (mem : List Nat) (ps : List (Option Nat)) (i p : Nat) (t : List Nat)
    (he : entry ps i = some p) (hc : cstr mem p = .ok t) (hb : blank mem ps i) : t = [] := by
  have ht := tokenText_of mem ps i p t he hc
  rcases hb with h | h
  · rw [ht] at h; cases h
  · rw [ht] at h; cases h; rfl

/-- Claim C5: `processGGA` returns and leaves all seven members of the Position State as
they were whenever one of tokens 2 to 5 is absent or empty, or token 6 is the text `0`.
The tokens are those of the token loop of the parser. -/
theorem processGGA_no_update (s : State) (mem : List Nat) (ps : List (Option Nat))
    (hloop : tokenLoop SEP TOKEN_SLOTS s.m_data (some 0) = .ok (mem, ps))
    (h : blank mem ps 2 ∨ blank mem ps 3 ∨ blank mem ps 4 ∨ blank mem ps 5 ∨
      tokenText mem ps 6 = some [48]) :
    ∃ t, processGGA s = .ok t ∧ t.position = s.position := by
  obtain ⟨_, hcs, _⟩ := tokenLoop_entries SEP s.m_data mem TOKEN_SLOTS ps hloop
  refine ⟨{ s with m_data := mem }, ?_, rfl⟩
  cases h2 : entry ps 2 with
  | none => exact processGGA_absent s mem ps hloop (by simp [h2])
  | some p2 =>
  cases h3 : entry ps 3 with
  | none => exact processGGA_absent s mem ps hloop (by simp [h3])
  | some p3 =>
  cases h4 : entry ps 4 with
  | none => exact processGGA_absent s mem ps hloop (by simp [h4])
  | some p4 =>
  cases h5 : entry ps 5 with
  | none => exact processGGA_absent s mem ps hloop (by simp [h5])
  | some p5 =>
  obtain ⟨t2, c2⟩ := hcs 2 p2 h2
  obtain ⟨t3, c3⟩ := hcs 3 p3 h3
  obtain ⟨t4, c4⟩ := hcs 4 p4 h4
  obtain ⟨t5, c5⟩ := hcs 5 p5 h5
  rw [processGGA_present s mem ps p2 p3 p4 p5 hloop h2 h3 h4 h5,
    anyEmpty_four mem p2 p3 p4 p5 t2 t3 t4 t5 c2 c3 c4 c5]
  by_cases hem : t2 = [] ∨ t3 = [] ∨ t4 = [] ∨ t5 = []
  · simp [hem]
  · have h6 : tokenText mem ps 6 = some [48] := by
      rcases h with hb | hb | hb | hb | hb
      · exact absurd (Or.inl (blank_text mem ps 2 p2 t2 h2 c2 hb)) hem
      · exact absurd (Or.inr (Or.inl (blank_text mem ps 3 p3 t3 h3 c3 hb))) hem
      · exact absurd (Or.inr (Or.inr (Or.inl (blank_text mem ps 4 p4 t4 h4 c4 hb)))) hem
      · exact absurd (Or.inr (Or.inr (Or.inr (blank_text mem ps 5 p5 t5 h5 c5 hb)))) hem
      · exact hb
    obtain ⟨p6, e6, c6⟩ := tokenText_some mem ps 6 [48] h6
    rw [strcmp_text mem ps 6 p6 [48] [48] e6 c6]
    simp [hem]

/-- Claim C6: `processRMC` returns and leaves all seven members of the Position State as
they were whenever one of tokens 3 to 6 is absent or empty, or token 2 is not the text `A`.
The tokens are those of the token loop of the parser. -/
theorem processRMC_no_update (s : State) (mem : List Nat) (ps : List (Option Nat))
    (hloop : tokenLoop SEP TOKEN_SLOTS s.m_data (some 0) = .ok (mem, ps))
    (h : blank mem ps 3 ∨ blank mem ps 4 ∨ blank mem ps 5 ∨ blank mem ps 6 ∨
      tokenText mem ps 2 ≠ some [65]) :
    ∃ t, processRMC s = .ok t ∧ t.position = s.position := by
  obtain ⟨_, hcs, hbefore⟩ := tokenLoop_entries SEP s.m_data mem TOKEN_SLOTS ps hloop
  refine ⟨{ s with m_data := mem }, ?_, rfl⟩
  cases h3 : entry ps 3 with
  | none => exact processRMC_absent s mem ps hloop (by simp [h3])
  | some p3 =>
  cases h4 : entry ps 4 with
  | none => exact processRMC_absent s mem ps hloop (by simp [h4])
  | some p4 =>
  cases h5 : entry ps 5 with
  | none => exact processRMC_absent s mem ps hloop (by simp [h5])
  | some p5 =>
  cases h6 : entry ps 6 with
  | none => exact processRMC_absent s mem ps hloop (by simp [h6])
  | some p6 =>
  obtain ⟨t3, c3⟩ := hcs 3 p3 h3
  obtain ⟨t4, c4⟩ := hcs 4 p4 h4
  obtain ⟨t5, c5⟩ := hcs 5 p5 h5
  obtain ⟨t6, c6⟩ := hcs 6 p6 h6
  rw [processRMC_present s mem ps p3 p4 p5 p6 hloop h3 h4 h5 h6,
    anyEmpty_four mem p3 p4 p5 p6 t3 t4 t5 t6 c3 c4 c5 c6]
  by_cases hem : t3 = [] ∨ t4 = [] ∨ t5 = [] ∨ t6 = []
  · simp [hem]
  · obtain ⟨p2, e2⟩ := hbefore 3 2 p3 h3 (by decide)
    obtain ⟨t2, c2⟩ := hcs 2 p2 e2
    have hA : t2 ≠ [65] := by
      rcases h with hb | hb | hb | hb | hb
      · exact absurd (Or.inl (blank_text mem ps 3 p3 t3 h3 c3 hb)) hem
      · exact absurd (Or.inr (Or.inl (blank_text mem ps 4 p4 t4 h4 c4 hb))) hem
      · exact absurd (Or.inr (Or.inr (Or.inl (blank_text mem ps 5 p5 t5 h5 c5 hb)))) hem
      · exact absurd (Or.inr (Or.inr (Or.inr (blank_text mem ps 6 p6 t6 h6 c6 hb)))) hem
      · intro he
        exact hb (by rw [tokenText_of mem ps 2 p2 t2 e2 c2, he])
    rw [strcmp_text mem ps 2 p2 t2 [65] e2 c2]
    simp [hem, hA]

theorem strcpy_text (cap : Nat) (mem : List Nat) (p : Nat) (t : List Nat)
    (hc : cstr mem p = .ok t) :
    strcpy cap mem p = if t.length + 1 ≤ cap then .ok t else .error .textOverflow := by
  simp [strcpy, hc]

/-- A GGA sentence with a fix whose four position texts fit their arrays: the parser
returns, the four texts are copied as they are, speed and bearing are not written, and the
altitude is written exactly when token 9 is present and not empty. -/
theorem processGGA_accepts (s : State) (mem : List Nat) (ps : List (Option Nat))
    (t2 t3 t4 t5 t6 : List Nat)
    (hloop : tokenLoop SEP TOKEN_SLOTS s.m_data (some 0) = .ok (mem, ps))
    (h2 : tokenText mem ps 2 = some t2) (h3 : tokenText mem ps 3 = some t3)
    (h4 : tokenText mem ps 4 = some t4) (h5 : tokenText mem ps 5 = some t5)
    (h6 : tokenText mem ps 6 = some t6)
    (n2 : t2 ≠ []) (n3 : t3 ≠ []) (n4 : t4 ≠ []) (n5 : t5 ≠ []) (n6 : t6 ≠ [48])
    (f2 : t2.length < COORD_SIZE) (f3 : t3.length < HEMI_SIZE)
    (f4 : t4.length < COORD_SIZE) (f5 : t5.length < HEMI_SIZE) :
    ∃ t, processGGA s = .ok t ∧
      t.m_latitude = t2 ∧ t.m_latitudeNS = t3 ∧ t.m_longitude = t4 ∧ t.m_longitudeEW = t5 ∧
      t.m_speed = s.m_speed ∧ t.m_bearing = s.m_bearing ∧
      (∀ t9, tokenText mem ps 9 = some t9 → t9 ≠ [] → t.m_altitude = .atofFeet t9) ∧
      (blank mem ps 9 → t.m_altitude = s.m_altitude) := by
  obtain ⟨_, hcs, _⟩ := tokenLoop_entries SEP s.m_data mem TOKEN_SLOTS ps hloop
  obtain ⟨p2, e2, c2⟩ := tokenText_some mem ps 2 t2 h2
  obtain ⟨p3, e3, c3⟩ := tokenText_some mem ps 3 t3 h3
  obtain ⟨p4, e4, c4⟩ := tokenText_some mem ps 4 t4 h4
  obtain ⟨p5, e5, c5⟩ := tokenText_some mem ps 5 t5 h5
  obtain ⟨p6, e6, c6⟩ := tokenText_some mem ps 6 t6 h6
  have g2 : t2.length + 1 ≤ COORD_SIZE := f2
  have g3 : t3.length + 1 ≤ HEMI_SIZE := f3
  have g4 : t4.length + 1 ≤ COORD_SIZE := f4
  have g5 : t5.length + 1 ≤ HEMI_SIZE := f5
  rw [processGGA_present s mem ps p2 p3 p4 p5 hloop e2 e3 e4 e5,
    anyEmpty_four mem p2 p3 p4 p5 t2 t3 t4 t5 c2 c3 c4 c5,
    strcmp_text mem ps 6 p6 t6 [48] e6 c6,
    strcpy_text COORD_SIZE mem p2 t2 c2, strcpy_text HEMI_SIZE mem p3 t3 c3,
    strcpy_text COORD_SIZE mem p4 t4 c4, strcpy_text HEMI_SIZE mem p5 t5 c5]
  simp only [n2, n3, n4, n5, n6, or_self, decide_False, g2, g3, g4, g5, if_true]
  cases e9 : entry ps 9 with
  | none =>
    refine ⟨_, rfl, rfl, rfl, rfl, rfl, rfl, rfl, ?_, fun _ => rfl⟩
    intro t9 h9
    rw [tokenText_none mem ps 9 e9] at h9
    cases h9
  | some p9 =>
    obtain ⟨t9, c9⟩ := hcs 9 p9 e9
    have h9 := tokenText_of mem ps 9 p9 t9 e9 c9
    simp only [c9]
    by_cases hpos : t9.length > 0
    · simp only [hpos, if_true]
      refine ⟨_, rfl, rfl, rfl, rfl, rfl, rfl, rfl, ?_, ?_⟩
      · intro u hu _
        rw [h9] at hu
        cases hu
        rfl
      · intro hb
        have := blank_text mem ps 9 p9 t9 e9 c9 hb
        subst this
        simp at hpos
    · simp only [hpos, if_false]
      refine ⟨_, rfl, rfl, rfl, rfl, rfl, rfl, rfl, ?_, fun _ => rfl⟩
      intro u hu hne
      rw [h9] at hu
      cases hu
      have : t9 = [] := List.length_eq_zero.mp (by omega)
      exact absurd this hne

/-- A GGA sentence with a fix one of whose position texts does not fit its array: a
`strcpy` writes behind the end of the array. -/
theorem processGGA_overflow (s : State) (mem : List Nat) (ps : List (Option Nat))
    (t2 t3 t4 t5 t6 : List Nat)
    (hloop : tokenLoop SEP TOKEN_SLOTS s.m_data (some 0) = .ok (mem, ps))
    (h2 : tokenText mem ps 2 = some t2) (h3 : tokenText mem ps 3 = some t3)
    (h4 : tokenText mem ps 4 = some t4) (h5 : tokenText mem ps 5 = some t5)
    (h6 : tokenText mem ps 6 = some t6)
    (n2 : t2 ≠ []) (n3 : t3 ≠ []) (n4 : t4 ≠ []) (n5 : t5 ≠ []) (n6 : t6 ≠ [48])
    (hbig : COORD_SIZE ≤ t2.length ∨ HEMI_SIZE ≤ t3.length ∨ COORD_SIZE ≤ t4.length ∨
      HEMI_SIZE ≤ t5.length) :
    processGGA s = .error .textOverflow := by
  obtain ⟨p2, e2, c2⟩ := tokenText_some mem ps 2 t2 h2
  obtain ⟨p3, e3, c3⟩ := tokenText_some mem ps 3 t3 h3
  obtain ⟨p4, e4, c4⟩ := tokenText_some mem ps 4 t4 h4
  obtain ⟨p5, e5, c5⟩ := tokenText_some mem ps 5 t5 h5
  obtain ⟨p6, e6, c6⟩ := tokenText_some mem ps 6 t6 h6
  rw [processGGA_present s mem ps p2 p3 p4 p5 hloop e2 e3 e4 e5,
    anyEmpty_four mem p2 p3 p4 p5 t2 t3 t4 t5 c2 c3 c4 c5,
    strcmp_text mem ps 6 p6 t6 [48] e6 c6,
    strcpy_text COORD_SIZE mem p2 t2 c2, strcpy_text HEMI_SIZE mem p3 t3 c3,
    strcpy_text COORD_SIZE mem p4 t4 c4, strcpy_text HEMI_SIZE mem p5 t5 c5]
  simp only [n2, n3, n4, n5, n6, or_self, decide_False]
  by_cases g2 : t2.length + 1 ≤ COORD_SIZE
  · by_cases g3 : t3.length + 1 ≤ HEMI_SIZE
    · by_cases g4 : t4.length + 1 ≤ COORD_SIZE
      · by_cases g5 : t5.length + 1 ≤ HEMI_SIZE
        · omega
        · simp only [g2, g3, g4, g5, if_true, if_false]
      · simp only [g2, g3, g4, if_true, if_false]
    · simp only [g2, g3, if_true, if_false]
  · simp only [g2, if_false]

/-- An active RMC sentence whose four position texts fit their arrays: the parser returns,
the four texts are copied as they are, the altitude is not written, and speed and bearing
are written, from tokens 7 and 8 in this order, exactly when both are present and not
empty. -/
theorem processRMC_accepts (s : State) (mem : List Nat) (ps : List (Option Nat))
    (t3 t4 t5 t6 : List Nat)
    (hloop : tokenLoop SEP TOKEN_SLOTS s.m_data (some 0) = .ok (mem, ps))
    (h2 : tokenText mem ps 2 = some [65])
    (h3 : tokenText mem ps 3 = some t3) (h4 : tokenText mem ps 4 = some t4)
    (h5 : tokenText mem ps 5 = some t5) (h6 : tokenText mem ps 6 = some t6)
    (n3 : t3 ≠ []) (n4 : t4 ≠ []) (n5 : t5 ≠ []) (n6 : t6 ≠ [])
    (f3 : t3.length < COORD_SIZE) (f4 : t4.length < HEMI_SIZE)
    (f5 : t5.length < COORD_SIZE) (f6 : t6.length < HEMI_SIZE) :
    ∃ t, processRMC s = .ok t ∧
      t.m_latitude = t3 ∧ t.m_latitudeNS = t4 ∧ t.m_longitude = t5 ∧ t.m_longitudeEW = t6 ∧
      t.m_altitude = s.m_altitude ∧
      (∀ t7 t8, tokenText mem ps 7 = some t7 → tokenText mem ps 8 = some t8 → t7 ≠ [] →
        t8 ≠ [] → t.m_speed = .atof t7 ∧ t.m_bearing = .atof t8) ∧
      (blank mem ps 7 ∨ blank mem ps 8 → t.m_speed = s.m_speed ∧ t.m_bearing = s.m_bearing) := by
  obtain ⟨_, hcs, _⟩ := tokenLoop_entries SEP s.m_data mem TOKEN_SLOTS ps hloop
  obtain ⟨p2, e2, c2⟩ := tokenText_some mem ps 2 [65] h2
  obtain ⟨p3, e3, c3⟩ := tokenText_some mem ps 3 t3 h3
  obtain ⟨p4, e4, c4⟩ := tokenText_some mem ps 4 t4 h4
  obtain ⟨p5, e5, c5⟩ := tokenText_some mem ps 5 t5 h5
  obtain ⟨p6, e6, c6⟩ := tokenText_some mem ps 6 t6 h6
  have g3 : t3.length + 1 ≤ COORD_SIZE := f3
  have g4 : t4.length + 1 ≤ HEMI_SIZE := f4
  have g5 : t5.length + 1 ≤ COORD_SIZE := f5
  have g6 : t6.length + 1 ≤ HEMI_SIZE := f6
  rw [processRMC_present s mem ps p3 p4 p5 p6 hloop e3 e4 e5 e6,
    anyEmpty_four mem p3 p4 p5 p6 t3 t4 t5 t6 c3 c4 c5 c6,
    strcmp_text mem ps 2 p2 [65] [65] e2 c2,
    strcpy_text COORD_SIZE mem p3 t3 c3, strcpy_text HEMI_SIZE mem p4 t4 c4,
    strcpy_text COORD_SIZE mem p5 t5 c5, strcpy_text HEMI_SIZE mem p6 t6 c6]
  simp only [n3, n4, n5, n6, or_self, decide_False, decide_True, g3, g4, g5, g6, if_true]
  cases e7 : entry ps 7 with
  | none =>
    refine ⟨_, rfl, rfl, rfl, rfl, rfl, rfl, ?_, fun _ => ⟨rfl, rfl⟩⟩
    intro t7 t8 h7
    rw [tokenText_none mem ps 7 e7] at h7
    cases h7
  | some p7 =>
    obtain ⟨t7, c7⟩ := hcs 7 p7 e7
    have h7 := tokenText_of mem ps 7 p7 t7 e7 c7
    cases e8 : entry ps 8 with
    | none =>
      refine ⟨_, rfl, rfl, rfl, rfl, rfl, rfl, ?_, fun _ => ⟨rfl, rfl⟩⟩
      intro u7 u8 _ h8
      rw [tokenText_none mem ps 8 e8] at h8
      cases h8
    | some p8 =>
      obtain ⟨t8, c8⟩ := hcs 8 p8 e8
      have h8 := tokenText_of mem ps 8 p8 t8 e8 c8
      simp only [c7, c8]
      by_cases hp7 : t7.length > 0
      · by_cases hp8 : t8.length > 0
        · simp only [hp7, hp8, if_true]
          refine ⟨_, rfl, rfl, rfl, rfl, rfl, rfl, ?_, ?_⟩
          · intro u7 u8 hu7 hu8 _ _
            rw [h7] at hu7
            rw [h8] at hu8
            cases hu7
            cases hu8
            exact ⟨rfl, rfl⟩
          · intro hb
            rcases hb with hb | hb
            · have := blank_text mem ps 7 p7 t7 e7 c7 hb
              subst this
              simp at hp7
            · have := blank_text mem ps 8 p8 t8 e8 c8 hb
              subst this
              simp at hp8
        · simp only [hp7, hp8, if_true, if_false]
          refine ⟨_, rfl, rfl, rfl, rfl, rfl, rfl, ?_, fun _ => ⟨rfl, rfl⟩⟩
          intro u7 u8 _ hu8 _ hne
          rw [h8] at hu8
          cases hu8
          have : t8 = [] := List.length_eq_zero.mp (by omega)
          exact absurd this hne
      · simp only [hp7, if_false]
        refine ⟨_, rfl, rfl, rfl, rfl, rfl, rfl, ?_, fun _ => ⟨rfl, rfl⟩⟩
        intro u7 u8 hu7 _ hne _
        rw [h7] at hu7
        cases hu7
        have : t7 = [] := List.length_eq_zero.mp (by omega)
        exact absurd this hne

/-- An active RMC sentence one of whose position texts does not fit its array: a `strcpy`
writes behind the end of the array. -/
theorem processRMC_overflow (s : State) (mem : List Nat) (ps : List (Option Nat))
    (t3 t4 t5 t6 : List Nat)
    (hloop : tokenLoop SEP TOKEN_SLOTS s.m_data (some 0) = .ok (mem, ps))
    (h2 : tokenText mem ps 2 = some [65])
    (h3 : tokenText mem ps 3 = some t3) (h4 : tokenText mem ps 4 = some t4)
    (h5 : tokenText mem ps 5 = some t5) (h6 : tokenText mem ps 6 = some t6)
    (n3 : t3 ≠ []) (n4 : t4 ≠ []) (n5 : t5 ≠ []) (n6 : t6 ≠ [])
    (hbig : COORD_SIZE ≤ t3.length ∨ HEMI_SIZE ≤ t4.length ∨ COORD_SIZE ≤ t5.length ∨
      HEMI_SIZE ≤ t6.length) :
    processRMC s = .error .textOverflow := by
  obtain ⟨p2, e2, c2⟩ := tokenText_some mem ps 2 [65] h2
  obtain ⟨p3, e3, c3⟩ := tokenText_some mem ps 3 t3 h3
  obtain ⟨p4, e4, c4⟩ := tokenText_some mem ps 4 t4 h4
  obtain ⟨p5, e5, c5⟩ := tokenText_some mem ps 5 t5 h5
  obtain ⟨p6, e6, c6⟩ := tokenText_some mem ps 6 t6 h6
  rw [processRMC_present s mem ps p3 p4 p5 p6 hloop e3 e4 e5 e6,
    anyEmpty_four mem p3 p4 p5 p6 t3 t4 t5 t6 c3 c4 c5 c6,
    strcmp_text mem ps 2 p2 [65] [65] e2 c2,
    strcpy_text COORD_SIZE mem p3 t3 c3, strcpy_text HEMI_SIZE mem p4 t4 c4,
    strcpy_text COORD_SIZE mem p5 t5 c5, strcpy_text HEMI_SIZE mem p6 t6 c6]
  simp only [n3, n4, n5, n6, or_self, decide_False, decide_True]
  by_cases g3 : t3.length + 1 ≤ COORD_SIZE
  · by_cases g4 : t4.length + 1 ≤ HEMI_SIZE
    · by_cases g5 : t5.length + 1 ≤ COORD_SIZE
      · by_cases g6 : t6.length + 1 ≤ HEMI_SIZE
        · omega
        · simp only [g3, g4, g5, g6, if_true, if_false]
      · simp only [g3, g4, g5, if_true, if_false]
    · simp only [g3, g4, if_true, if_false]
  · simp only [g3, if_false]

/-- What a returning `processGGA` leaves untouched: only `m_data` and the position texts
change, and the altitude changes only from a token 9 that is present and not empty. -/
theorem processGGA_frame (s t : State) (h : processGGA s = .ok t) :
    ∃ mem ps, tokenLoop SEP TOKEN_SLOTS s.m_data (some 0) = .ok (mem, ps) ∧
      t.m_data = mem ∧ t.m_offset = s.m_offset ∧ t.m_collect = s.m_collect ∧
      t.m_speed = s.m_speed ∧ t.m_bearing = s.m_bearing ∧
      (t.m_altitude ≠ s.m_altitude →
        ∃ t9, tokenText mem ps 9 = some t9 ∧ t9 ≠ [] ∧ t.m_altitude = .atofFeet t9) := by
  cases hl : tokenLoop SEP TOKEN_SLOTS s.m_data (some 0) with
  | error e => unfold processGGA at h; rw [hl] at h; cases h
  | ok r =>
    obtain ⟨mem, ps⟩ := r
    refine ⟨mem, ps, rfl, ?_⟩
    by_cases habs : entry ps 2 = none ∨ entry ps 3 = none ∨ entry ps 4 = none ∨ entry ps 5 = none
    · rw [processGGA_absent s mem ps hl habs] at h
      cases h
      exact ⟨rfl, rfl, rfl, rfl, rfl, fun hne => absurd rfl hne⟩
    · obtain ⟨p2, h2⟩ : ∃ p, entry ps 2 = some p := by
        cases he : entry ps 2 with
        | none => exact absurd (Or.inl he) habs
        | some p => exact ⟨p, rfl⟩
      obtain ⟨p3, h3⟩ : ∃ p, entry ps 3 = some p := by
        cases he : entry ps 3 with
        | none => exact absurd (Or.inr (Or.inl he)) habs
        | some p => exact ⟨p, rfl⟩
      obtain ⟨p4, h4⟩ : ∃ p, entry ps 4 = some p := by
        cases he : entry ps 4 with
        | none => exact absurd (Or.inr (Or.inr (Or.inl he))) habs
        | some p => exact ⟨p, rfl⟩
      obtain ⟨p5, h5⟩ : ∃ p, entry ps 5 = some p := by
        cases he : entry ps 5 with
        | none => exact absurd (Or.inr (Or.inr (Or.inr he))) habs
        | some p => exact ⟨p, rfl⟩
      rw [processGGA_present s mem ps p2 p3 p4 p5 hl h2 h3 h4 h5] at h
      split at h
      · cases h
      · cases h; exact ⟨rfl, rfl, rfl, rfl, rfl, fun hne => absurd rfl hne⟩
      · split at h
        · cases h
        · cases h; exact ⟨rfl, rfl, rfl, rfl, rfl, fun hne => absurd rfl hne⟩
        · split at h
          · cases h
          · split at h
            · cases h
            · split at h
              · cases h
              · split at h
                · cases h
                · split at h
                  · cases h; exact ⟨rfl, rfl, rfl, rfl, rfl, fun hne => absurd rfl hne⟩
                  · rename_i p9 e9
                    split at h
                    · cases h
                    · rename_i t9 c9
                      split at h
                      · cases h
                        refine ⟨rfl, rfl, rfl, rfl, rfl, fun _ => ⟨t9, ?_, ?_, rfl⟩⟩
                        · exact tokenText_of mem ps 9 p9 t9 e9 c9
                        · intro he; subst he; simp at *
                      · cases h; exact ⟨rfl, rfl, rfl, rfl, rfl, fun hne => absurd rfl hne⟩

/-- What a returning `processRMC` leaves untouched: the altitude is kept, and speed and
bearing are either both kept or both taken from tokens 7 and 8, present and not empty. -/
theorem processRMC_frame (s t : State) (h : processRMC s = .ok t) :
    ∃ mem ps, tokenLoop SEP TOKEN_SLOTS s.m_data (some 0) = .ok (mem, ps) ∧
      t.m_data = mem ∧ t.m_offset = s.m_offset ∧ t.m_collect = s.m_collect ∧
      t.m_altitude = s.m_altitude ∧
      ((t.m_speed = s.m_speed ∧ t.m_bearing = s.m_bearing) ∨
        ∃ t7 t8, tokenText mem ps 7 = some t7 ∧ tokenText mem ps 8 = some t8 ∧ t7 ≠ [] ∧
          t8 ≠ [] ∧ t.m_speed = .atof t7 ∧ t.m_bearing = .atof t8) := by
  cases hl : tokenLoop SEP TOKEN_SLOTS s.m_data (some 0) with
  | error e => unfold processRMC at h; rw [hl] at h; cases h
  | ok r =>
    obtain ⟨mem, ps⟩ := r
    refine ⟨mem, ps, rfl, ?_⟩
    by_cases habs : entry ps 3 = none ∨ entry ps 4 = none ∨ entry ps 5 = none ∨ entry ps 6 = none
    · rw [processRMC_absent s mem ps hl habs] at h
      cases h
      exact ⟨rfl, rfl, rfl, rfl, Or.inl ⟨rfl, rfl⟩⟩
    · obtain ⟨p3, h3⟩ : ∃ p, entry ps 3 = some p := by
        cases he : entry ps 3 with
        | none => exact absurd (Or.inl he) habs
        | some p => exact ⟨p, rfl⟩
      obtain ⟨p4, h4⟩ : ∃ p, entry ps 4 = some p := by
        cases he : entry ps 4 with
        | none => exact absurd (Or.inr (Or.inl he)) habs
        | some p => exact ⟨p, rfl⟩
      obtain ⟨p5, h5⟩ : ∃ p, entry ps 5 = some p := by
        cases he : entry ps 5 with
        | none => exact absurd (Or.inr (Or.inr (Or.inl he))) habs
        | some p => exact ⟨p, rfl⟩
      obtain ⟨p6, h6⟩ : ∃ p, entry ps 6 = some p := by
        cases he : entry ps 6 with
        | none => exact absurd (Or.inr (Or.inr (Or.inr he))) habs
        | some p => exact ⟨p, rfl⟩
      rw [processRMC_present s mem ps p3 p4 p5 p6 hl h3 h4 h5 h6] at h
      split at h
      · cases h
      · cases h; exact ⟨rfl, rfl, rfl, rfl, Or.inl ⟨rfl, rfl⟩⟩
      · split at h
        · cases h
        · cases h; exact ⟨rfl, rfl, rfl, rfl, Or.inl ⟨rfl, rfl⟩⟩
        · split at h
          · cases h
          · split at h
            · cases h
            · split at h
              · cases h
              · split at h
                · cases h
                · split at h
                  · rename_i p7 p8 e7 e8
                    split at h
                    · cases h
                    · rename_i t7 c7
                      split at h
                      · split at h
                        · cases h
                        · rename_i t8 c8
                          split at h
                          · cases h
                            refine ⟨rfl, rfl, rfl, rfl, Or.inr ⟨t7, t8, ?_, ?_, ?_, ?_, rfl, rfl⟩⟩
                            · exact tokenText_of mem ps 7 p7 t7 e7 c7
                            · exact tokenText_of mem ps 8 p8 t8 e8 c8
                            · intro he; subst he; simp at *
                            · intro he; subst he; simp at *
                          · cases h; exact ⟨rfl, rfl, rfl, rfl, Or.inl ⟨rfl, rfl⟩⟩
                      · cases h; exact ⟨rfl, rfl, rfl, rfl, Or.inl ⟨rfl, rfl⟩⟩
                  · cases h; exact ⟨rfl, rfl, rfl, rfl, Or.inl ⟨rfl, rfl⟩⟩

theorem loopResult_ok (s : State) (mem : List Nat) (ps : List (Option Nat))
    (h : tokenLoop SEP TOKEN_SLOTS s.m_data (some 0) = .ok (mem, ps)) :
    loopResult s = (mem, ps) := by
  unfold loopResult
  rw [h]

/-- A GGA sentence with position texts and no token 6: the comparison of token 6 with `0` is
made on the null pointer. -/
theorem processGGA_null_fix (s : State) (mem : List Nat) (ps : List (Option Nat))
    (t2 t3 t4 t5 : List Nat)
    (hloop : tokenLoop SEP TOKEN_SLOTS s.m_data (some 0) = .ok (mem, ps))
    (h2 : tokenText mem ps 2 = some t2) (h3 : tokenText mem ps 3 = some t3)
    (h4 : tokenText mem ps 4 = some t4) (h5 : tokenText mem ps 5 = some t5)
    (n2 : t2 ≠ []) (n3 : t3 ≠ []) (n4 : t4 ≠ []) (n5 : t5 ≠ [])
    (h6 : entry ps 6 = none) :
    processGGA s = .error .nullPointer := by
  obtain ⟨p2, e2, c2⟩ := tokenText_some mem ps 2 t2 h2
  obtain ⟨p3, e3, c3⟩ := tokenText_some mem ps 3 t3 h3
  obtain ⟨p4, e4, c4⟩ := tokenText_some mem ps 4 t4 h4
  obtain ⟨p5, e5, c5⟩ := tokenText_some mem ps 5 t5 h5
  rw [processGGA_present s mem ps p2 p3 p4 p5 hloop e2 e3 e4 e5,
    anyEmpty_four mem p2 p3 p4 p5 t2 t3 t4 t5 c2 c3 c4 c5, h6]
  simp only [n2, n3, n4, n5, or_self, decide_False, strcmp]

/-- Claim C19: each parser writes only its own optional members. Whenever `processGGA`
returns, speed and bearing are as before, and the altitude differs from before only if
token 9 is present and not empty; whenever `processRMC` returns, the altitude is as
before. -/
theorem parser_frames (s : State) :
    (∀ t, processGGA s = .ok t →
      t.m_speed = s.m_speed ∧ t.m_bearing = s.m_bearing ∧
      (t.m_altitude ≠ s.m_altitude →
        ∃ t9, tokenText (loopResult s).1 (loopResult s).2 9 = some t9 ∧ t9 ≠ [] ∧
          t.m_altitude = .atofFeet t9)) ∧
    (∀ t, processRMC s = .ok t → t.m_altitude = s.m_altitude) := by
  constructor
  · intro t h
    obtain ⟨mem, ps, hl, _, _, _, hs, hb, ha⟩ := processGGA_frame s t h
    rw [loopResult_ok s mem ps hl]
    exact ⟨hs, hb, ha⟩
  · intro t h
    obtain ⟨mem, ps, _, _, _, _, ha, _⟩ := processRMC_frame s t h
    exact ha

/-! ## Validation gate of the frame assembler -/

theorem findStar_found (data : List Nat) (n p : Nat) (h : findStar data n = .ok p) :
    p = 0 ∨ (1 ≤ p ∧ p ≤ n ∧ data[p]? = some 42) := by
  induction n with
  | zero =>
    simp only [findStar] at h
    cases h
    exact Or.inl rfl
  | succ n ih =>
    rw [findStar] at h
    cases hg : data[n + 1]? with
    | none => rw [hg] at h; cases h
    | some b =>
      rw [hg] at h
      by_cases hb : b = 42
      · simp only [hb, if_true] at h
        cases h
        exact Or.inr ⟨by omega, Nat.le_refl _, by rw [hg, hb]⟩
      · simp only [hb, if_false] at h
        rcases ih h with h0 | ⟨h1, h2, h3⟩
        · exact Or.inl h0
        · exact Or.inr ⟨h1, by omega, h3⟩

/-- An accepted body contains a `*` behind its first byte, at an index the scan visits. -/
theorem checkXOR_star (data : List Nat) (length : Nat) (h : checkXOR data length = .ok true) :
    ∃ p, 1 ≤ p ∧ p ≤ sub1 length ∧ data[p]? = some 42 := by
  unfold checkXOR at h
  cases hf : findStar data (sub1 length) with
  | error e => rw [hf] at h; cases h
  | ok p =>
    rw [hf] at h
    rcases findStar_found data (sub1 length) p hf with h0 | h1
    · simp [h0] at h
    · exact ⟨p, h1⟩

theorem position_store (s : State) (c : Nat) : (store s c).position = s.position := rfl

theorem completeSentence_gate (s t : State) (h : completeSentence s = .ok t)
    (hne : t.position ≠ s.position) :
    checkXOR (s.m_data.drop 1) (sub1 s.m_offset) = .ok true ∧
      (memcmp GGA s.m_data 3 = .ok true ∨ memcmp RMC s.m_data 3 = .ok true) := by
  unfold completeSentence at h
  cases hx : checkXOR (s.m_data.drop 1) (sub1 s.m_offset) with
  | error e => rw [hx] at h; cases h
  | ok ret =>
    rw [hx] at h
    cases ret with
    | false =>
      simp only [Bool.false_eq_true, if_false] at h
      cases h
      exact absurd rfl hne
    | true =>
      refine ⟨rfl, ?_⟩
      simp only [if_true] at h
      unfold dispatch at h
      cases hg : memcmp GGA s.m_data 3 with
      | error e => rw [hg] at h; cases h
      | ok g =>
        cases g with
        | true => exact Or.inl rfl
        | false =>
          rw [hg] at h
          cases hr : memcmp RMC s.m_data 3 with
          | error e => rw [hr] at h; cases h
          | ok r =>
            cases r with
            | true => exact Or.inr rfl
            | false =>
              rw [hr] at h
              cases h
              exact absurd rfl hne

theorem interpretByte_lf_cases (s t : State) (h : interpretByte s 10 = .ok t) :
    (s.m_collect = false ∧ t = s) ∨
      (s.m_collect = true ∧ s.m_offset < s.m_data.length ∧
        completeSentence (store s 10) = .ok t) := by
  unfold interpretByte at h
  simp only [show (10 : Nat) ≠ 36 by decide, if_false, if_true] at h
  by_cases hcol : s.m_collect = true
  · simp only [hcol, if_true] at h
    by_cases ho : s.m_offset < s.m_data.length
    · simp only [ho, if_true] at h
      exact Or.inr ⟨hcol, ho, h⟩
    · simp only [ho, if_false] at h
      cases h
  · simp only [hcol] at h
    cases h
    exact Or.inl ⟨by simpa using hcol, rfl⟩

theorem findStar_none (data : List Nat) (n : Nat) (hin : n < data.length)
    (h : ∀ i, 1 ≤ i → i ≤ n → data[i]? ≠ some 42) : findStar data n = .ok 0 := by
  induction n with
  | zero => rfl
  | succ n ih =>
    rw [findStar, List.getElem?_eq_getElem hin]
    have hne : data[n + 1] ≠ 42 := by
      intro he
      exact h (n + 1) (by omega) (Nat.le_refl _) (by rw [List.getElem?_eq_getElem hin, he])
    simp only [hne, if_false]
    exact ih (by omega) (fun i h1 h2 => h i h1 (by omega))

theorem mem_take_of_getElem? (l : List Nat) (i n x : Nat) (h : l[i]? = some x) (hi : i < n) :
    x ∈ l.take n := by
  have : (l.take n)[i]? = some x := by
    rw [List.getElem?_take_of_lt hi]; exact h
  exact List.getElem?_mem this

/-- A body without `*` is rejected, and the scan stays inside the body. -/
theorem checkXOR_no_star (data : List Nat) (length : Nat) (h0 : 0 < length)
    (hin : length ≤ data.length) (h : 42 ∉ data.take length) :
    checkXOR data length = .ok false := by
  unfold checkXOR
  rw [sub1_pos _ h0, findStar_none data (length - 1) (by omega)]
  · rfl
  · intro i _ h2 he
    exact h (mem_take_of_getElem? data i length 42 he (by omega))

/-- Claim C8: when `interpret` processes the line feed that completes a sentence, the
Position State changes only if `checkXOR` accepts the bytes behind the `$` and the bytes at
offsets 3 to 5 are `GGA` or `RMC`. A sentence whose checksum does not match, an accepted
sentence of another type and a sentence without `*` make the step return with the Position
State as it was. -/
theorem position_gate (s : State) (hcol : s.m_collect = true)
    (ho : s.m_offset < s.m_data.length) :
    (∀ t, interpretByte s 10 = .ok t → t.position ≠ s.position →
      checkXOR ((store s 10).m_data.drop 1) (sub1 (store s 10).m_offset) = .ok true ∧
      (memcmp GGA (store s 10).m_data 3 = .ok true ∨
        memcmp RMC (store s 10).m_data 3 = .ok true)) ∧
    (checkXOR ((store s 10).m_data.drop 1) (sub1 (store s 10).m_offset) = .ok false →
      interpretByte s 10 = .ok (reset (store s 10))) ∧
    (checkXOR ((store s 10).m_data.drop 1) (sub1 (store s 10).m_offset) = .ok true →
      memcmp GGA (store s 10).m_data 3 = .ok false →
      memcmp RMC (store s 10).m_data 3 = .ok false →
      interpretByte s 10 = .ok (reset (store s 10))) ∧
    (s.m_data.length = DATA_SIZE → 0 < s.m_offset →
      42 ∉ ((store s 10).m_data.drop 1).take s.m_offset →
      interpretByte s 10 = .ok (reset (store s 10))) ∧
    (reset (store s 10)).position = s.position := by
  rw [interpretByte_collecting s hcol ho]
  refine ⟨?_, ?_, ?_, ?_, rfl⟩
  · intro t hc hne
    exact completeSentence_gate (store s 10) t hc (by rw [position_store]; exact hne)
  · intro hx
    exact completeSentence_rejected _ (Or.inl hx)
  · intro hx hg hr
    exact completeSentence_rejected _ (Or.inr ⟨hx, hg, hr⟩)
  · intro hlen hoff hstar
    have hsz : s.m_offset < 1000 := by rw [← show DATA_SIZE = 1000 from rfl, ← hlen]; exact ho
    have hoff1 : (store s 10).m_offset = s.m_offset + 1 := by
      show (s.m_offset + 1) % 4294967296 = s.m_offset + 1
      exact Nat.mod_eq_of_lt (by omega)
    have e1 : sub1 ((store s 10).m_offset) = s.m_offset := by
      rw [hoff1, sub1_pos _ (by omega), Nat.add_sub_cancel]
    have hl : ((store s 10).m_data.drop 1).length = s.m_data.length - 1 := by
      simp [store]
    apply completeSentence_rejected _ (Or.inl _)
    rw [e1]
    exact checkXOR_no_star _ _ hoff (by rw [hl]; omega) hstar

/-! ## Soundness of the checksum validation -/

theorem findStar_last (data : List Nat) (n p : Nat) (h : findStar data n = .ok p) :
    ∀ i, p < i → i ≤ n → data[i]? ≠ some 42 := by
  induction n with
  | zero => intro i h1 h2; omega
  | succ n ih =>
    rw [findStar] at h
    cases hg : data[n + 1]? with
    | none => rw [hg] at h; cases h
    | some b =>
      rw [hg] at h
      by_cases hb : b = 42
      · simp only [hb, if_true] at h
        cases h
        intro i h1 h2; omega
      · simp only [hb, if_false] at h
        intro i h1 h2
        by_cases hi : i = n + 1
        · rw [hi, hg]; intro he; exact hb (Option.some.inj he)
        · exact ih h i h1 (by omega)

theorem calcXOR_take (data : List Nat) (p c : Nat) (hp : p ≤ data.length)
    (hb : ∀ b ∈ data.take p, b < 256) (h : calcXOR data p = .ok c) :
    c = xorAll (data.take p) := by
  have h1 := calcXOR_append (data.take p) (data.drop p) hb
  rw [List.take_append_drop, List.length_take, Nat.min_eq_left hp, h] at h1
  exact Except.ok.inj h1

theorem hexDigit_upper (d : Nat) (hd : d < 16) : upperHex (hexDigit d) := by
  unfold upperHex hexDigit
  split
  · left; omega
  · right; omega

theorem memcmp_pair (x y : Nat) (data : List Nat) (off : Nat)
    (h : memcmp [x, y] data off = .ok true) :
    data[off]? = some x ∧ data[off + 1]? = some y := by
  unfold memcmp at h
  split at h
  · rename_i hin
    have he : (data.drop off).take 2 = [x, y] := by simpa using h
    have hin2 : off + 2 ≤ data.length := hin
    have h0 : ((data.drop off).take 2)[0]? = some x := by rw [he]; rfl
    have h1 : ((data.drop off).take 2)[1]? = some y := by rw [he]; rfl
    rw [List.getElem?_take_of_lt (by decide), List.getElem?_drop] at h0 h1
    exact ⟨by simpa using h0, h1⟩
  · cases h

/-- Claim C15: `checkXOR` is sound. If it returns true for a body of at least one byte, the
body has a `*` at an index p from 1 on, no `*` behind it, and the two bytes behind the `*` are
the two hexadecimal digits, out of `0`-`9` and `A`-`F`, of the XOR of the bytes before
the `*`. -/
theorem checkXOR_sound (data : List Nat) (length : Nat) (h1 : 1 ≤ length)
    (hbytes : ∀ b ∈ data.take length, b < 256) (h : checkXOR data length = .ok true) :
    ∃ p, 1 ≤ p ∧ p < length ∧ data[p]? = some 42 ∧
      (∀ i, p < i → i < length → data[i]? ≠ some 42) ∧
      data[p + 1]? = some (hexDigit (xorAll (data.take p) / 16)) ∧
      data[p + 2]? = some (hexDigit (xorAll (data.take p) % 16)) ∧
      upperHex (hexDigit (xorAll (data.take p) / 16)) ∧
      upperHex (hexDigit (xorAll (data.take p) % 16)) := by
  unfold checkXOR at h
  rw [sub1_pos _ h1] at h
  cases hf : findStar data (length - 1) with
  | error e => rw [hf] at h; cases h
  | ok p =>
    rw [hf] at h
    rcases findStar_found data (length - 1) p hf with h0 | ⟨hp1, hp2, hp3⟩
    · simp [h0] at h
    · have hp0 : p ≠ 0 := by omega
      simp only [hp0, if_false] at h
      have hpl : p < data.length := by
        by_contra hc
        rw [List.getElem?_eq_none (Nat.le_of_not_lt hc)] at hp3
        cases hp3
      cases hc : calcXOR data p with
      | error e => rw [hc] at h; cases h
      | ok c =>
        rw [hc] at h
        have hsub : ∀ b ∈ data.take p, b < 256 := by
          intro b hb
          exact hbytes b (List.take_subset_take_left data (by omega) hb)
        have hcx := calcXOR_take data p c (Nat.le_of_lt hpl) hsub hc
        have hlt : xorAll (data.take p) < 256 := xorAll_lt _ hsub
        have hdiv : xorAll (data.take p) / 16 % 16 = xorAll (data.take p) / 16 :=
          Nat.mod_eq_of_lt (by omega)
        obtain ⟨g1, g2⟩ := memcmp_pair _ _ data (p + 1) h
        rw [hcx, hdiv] at g1
        rw [hcx] at g2
        refine ⟨p, hp1, by omega, hp3, ?_, g1, g2, hexDigit_upper _ (by omega),
          hexDigit_upper _ (Nat.mod_lt _ (by decide))⟩
        intro i hi1 hi2
        exact findStar_last data (length - 1) p hf i hi1 (by omega)

theorem checkXOR_sound_witness :
    ∃ p, 1 ≤ p ∧ p < 19 ∧ bodyGLL[p]? = some 42 ∧
      (∀ i, p < i → i < 19 → bodyGLL[i]? ≠ some 42) ∧
      bodyGLL[p + 1]? = some (hexDigit (xorAll (bodyGLL.take p) / 16)) ∧
      bodyGLL[p + 2]? = some (hexDigit (xorAll (bodyGLL.take p) % 16)) ∧
      upperHex (hexDigit (xorAll (bodyGLL.take p) / 16)) ∧
      upperHex (hexDigit (xorAll (bodyGLL.take p) % 16)) :=
  checkXOR_sound bodyGLL 19 (by decide) (by decide) (by decide)

/-- A checksum written with a lowercase digit is rejected. -/
theorem checkXOR_lowercase :
    checkXOR (bytes "GPRMC,123519,A,4807.038,N,01131.000,E,022.4,084.4,230394,003.1,W*6A\r\n")
        (bytes "GPRMC,123519,A,4807.038,N,01131.000,E,022.4,084.4,230394,003.1,W*6A\r\n").length
        = .ok true ∧
      checkXOR (bytes "GPRMC,123519,A,4807.038,N,01131.000,E,022.4,084.4,230394,003.1,W*6a\r\n")
        (bytes "GPRMC,123519,A,4807.038,N,01131.000,E,022.4,084.4,230394,003.1,W*6a\r\n").length
        = .ok false := by
  decide

theorem findStar_congr (a b : List Nat) (n : Nat)
    (h : ∀ i, 1 ≤ i → i ≤ n → a[i]? = b[i]?) : findStar a n = findStar b n := by
  induction n with
  | zero => rfl
  | succ n ih =>
    rw [findStar, findStar, h (n + 1) (by omega) (Nat.le_refl _),
      ih (fun i h1 h2 => h i h1 (by omega))]

theorem calcXOR_congr (a b : List Nat) (n : Nat)
    (h : ∀ i, i < n → a[i]? = b[i]?) : calcXOR a n = calcXOR b n := by
  induction n with
  | zero => rfl
  | succ n ih =>
    rw [calcXOR, calcXOR, h n (Nat.lt_succ_self n), ih (fun i h1 => h i (by omega))]

theorem memcmp_congr (lit a b : List Nat) (off : Nat) (hlen : a.length = b.length)
    (h : ∀ i, i < off + lit.length → a[i]? = b[i]?) : memcmp lit a off = memcmp lit b off := by
  have he : (a.drop off).take lit.length = (b.drop off).take lit.length := by
    apply List.ext_getElem?
    intro i
    by_cases hi : i < lit.length
    · rw [List.getElem?_take_of_lt hi, List.getElem?_take_of_lt hi, List.getElem?_drop,
        List.getElem?_drop]
      exact h (off + i) (by omega)
    · rw [List.getElem?_eq_none (by simp; omega), List.getElem?_eq_none (by simp; omega)]
  unfold memcmp
  rw [hlen, he]

theorem hexDigit_ge (d : Nat) : 48 ≤ hexDigit d := by
  unfold hexDigit
  split <;> omega

/-- What an accepting run of `checkXOR` found: the position of the `*`, the checksum and the
two bytes it was compared with. -/
theorem checkXOR_accept (data : List Nat) (length : Nat) (h1 : 1 ≤ length)
    (h : checkXOR data length = .ok true) :
    ∃ p c, 1 ≤ p ∧ p ≤ length - 1 ∧ findStar data (length - 1) = .ok p ∧
      data[p]? = some 42 ∧ calcXOR data p = .ok c ∧
      memcmp (hex2 c) data (p + 1) = .ok true ∧
      data[p + 1]? = some (hexDigit (c / 16 % 16)) ∧ data[p + 2]? = some (hexDigit (c % 16)) := by
  unfold checkXOR at h
  rw [sub1_pos _ h1] at h
  cases hf : findStar data (length - 1) with
  | error e => rw [hf] at h; cases h
  | ok p =>
    rw [hf] at h
    rcases findStar_found data (length - 1) p hf with h0 | ⟨hp1, hp2, hp3⟩
    · simp [h0] at h
    · have hp0 : p ≠ 0 := by omega
      simp only [hp0, if_false] at h
      cases hc : calcXOR data p with
      | error e => rw [hc] at h; cases h
      | ok c =>
        rw [hc] at h
        obtain ⟨g1, g2⟩ := memcmp_pair _ _ data (p + 1) h
        exact ⟨p, c, hp1, hp2, rfl, hp3, hc, h, g1, g2⟩

/-! ## Concrete sentences -/

set_option maxRecDepth 100000 in
theorem processGGA_no_update_witness :
    tokenText
        (loopResult (buffered (bytes
          "$GPGGA,123456,4807.038,N,01131.000,E,0,08,0.9,545.4,M,46.9,M,,*4C\r\n"))).1
        (loopResult (buffered (bytes
          "$GPGGA,123456,4807.038,N,01131.000,E,0,08,0.9,545.4,M,46.9,M,,*4C\r\n"))).2 6
        = some (bytes "0") ∧
      ∃ t, processGGA (buffered (bytes
          "$GPGGA,123456,4807.038,N,01131.000,E,0,08,0.9,545.4,M,46.9,M,,*4C\r\n")) = .ok t ∧
        t.position = (buffered (bytes
          "$GPGGA,123456,4807.038,N,01131.000,E,0,08,0.9,545.4,M,46.9,M,,*4C\r\n")).position :=
  ⟨by decide,
    processGGA_no_update
      (buffered (bytes "$GPGGA,123456,4807.038,N,01131.000,E,0,08,0.9,545.4,M,46.9,M,,*4C\r\n"))
      (loopResult (buffered (bytes
        "$GPGGA,123456,4807.038,N,01131.000,E,0,08,0.9,545.4,M,46.9,M,,*4C\r\n"))).1
      (loopResult (buffered (bytes
        "$GPGGA,123456,4807.038,N,01131.000,E,0,08,0.9,545.4,M,46.9,M,,*4C\r\n"))).2
      (by decide) (Or.inr (Or.inr (Or.inr (Or.inr (by decide)))))⟩

set_option maxRecDepth 100000 in
theorem processRMC_no_update_witness :
    tokenText
        (loopResult (buffered (bytes
          "$GPRMC,123519,V,4807.038,N,01131.000,E,022.4,084.4,230394,003.1,W*7D\r\n"))).1
        (loopResult (buffered (bytes
          "$GPRMC,123519,V,4807.038,N,01131.000,E,022.4,084.4,230394,003.1,W*7D\r\n"))).2 2
        = some (bytes "V") ∧
      ∃ t, processRMC (buffered (bytes
          "$GPRMC,123519,V,4807.038,N,01131.000,E,022.4,084.4,230394,003.1,W*7D\r\n")) = .ok t ∧
        t.position = (buffered (bytes
          "$GPRMC,123519,V,4807.038,N,01131.000,E,022.4,084.4,230394,003.1,W*7D\r\n")).position :=
  ⟨by decide,
    processRMC_no_update
      (buffered (bytes
        "$GPRMC,123519,V,4807.038,N,01131.000,E,022.4,084.4,230394,003.1,W*7D\r\n"))
      (loopResult (buffered (bytes
        "$GPRMC,123519,V,4807.038,N,01131.000,E,022.4,084.4,230394,003.1,W*7D\r\n"))).1
      (loopResult (buffered (bytes
        "$GPRMC,123519,V,4807.038,N,01131.000,E,022.4,084.4,230394,003.1,W*7D\r\n"))).2
      (by decide) (Or.inr (Or.inr (Or.inr (Or.inr (by decide)))))⟩

set_option maxRecDepth 100000 in
theorem position_gate_witness :
    interpretByte (buffered (bytes
        "$GPGGA,123456,4807.038,N,01131.000,E,1,08,0.9,545.4,M,46.9,M,,*4D\r")) 10
      = .ok (outcome (interpretByte (buffered (bytes
          "$GPGGA,123456,4807.038,N,01131.000,E,1,08,0.9,545.4,M,46.9,M,,*4D\r")) 10)) ∧
    (outcome (interpretByte (buffered (bytes
        "$GPGGA,123456,4807.038,N,01131.000,E,1,08,0.9,545.4,M,46.9,M,,*4D\r")) 10)).position
      = { latitude := bytes "4807.038", latitudeNS := bytes "N", longitude := bytes "01131.000",
          longitudeEW := bytes "E", altitude := .atofFeet (bytes "545.4"), speed := .zero,
          bearing := .zero } ∧
    checkXOR ((store (buffered (bytes
        "$GPGGA,123456,4807.038,N,01131.000,E,1,08,0.9,545.4,M,46.9,M,,*4D\r")) 10).m_data.drop 1)
      (sub1 (store (buffered (bytes
        "$GPGGA,123456,4807.038,N,01131.000,E,1,08,0.9,545.4,M,46.9,M,,*4D\r")) 10).m_offset)
      = .ok true ∧
    interpretByte (buffered (bytes "$GPGGA,123456,4807.038,N\r")) 10
      = .ok (reset (store (buffered (bytes "$GPGGA,123456,4807.038,N\r")) 10)) :=
  ⟨by decide, by decide,
    ((position_gate
      (buffered (bytes "$GPGGA,123456,4807.038,N,01131.000,E,1,08,0.9,545.4,M,46.9,M,,*4D\r"))
      (by decide) (by decide)).1
      (outcome (interpretByte (buffered (bytes
          "$GPGGA,123456,4807.038,N,01131.000,E,1,08,0.9,545.4,M,46.9,M,,*4D\r")) 10))
      (by decide) (by decide)).1,
    (position_gate (buffered (bytes "$GPGGA,123456,4807.038,N\r")) (by decide)
      (by decide)).2.2.2.1 (by decide) (by decide) (by decide)⟩

set_option maxRecDepth 100000 in
/-- The GGA sentence of the spec: `processGGA` stores latitude `4807.038`, `N`, longitude
`01131.000`, `E`, and the altitude from the text `545.4`. -/
theorem processGGA_spec_sentence :
    (processGGA (buffered specGGA)).map State.position
      = .ok { latitude := bytes "4807.038", latitudeNS := bytes "N",
              longitude := bytes "01131.000", longitudeEW := bytes "E",
              altitude := .atofFeet (bytes "545.4"), speed := .zero, bearing := .zero } := by
  decide

set_option maxRecDepth 100000 in
/-- Claim C4 at its failing input: the sentence has tokens 2 to 5 present and not empty and
token 6 is `1`, its checksum is valid, and the latitude has 20 characters. The copy into the
20 byte array `m_latitude` needs 21 bytes: `processGGA` ends in the out of bounds write, both
called on the buffer and reached through `interpret` from the constructed state. -/
theorem processGGA_long_latitude :
    (tokenTexts (loopResult (buffered longLatitudeGGA))).take 7
        = [some (bytes "$GPGGA"), some (bytes "123456"), some (bytes "12345678901234567890"),
           some (bytes "N"), some (bytes "01131.000"), some (bytes "E"), some (bytes "1")] ∧
      processGGA (buffered longLatitudeGGA) = .error .textOverflow ∧
      interpret fresh longLatitudeGGA = .error .textOverflow := by
  decide

set_option maxRecDepth 100000 in
/-- An active RMC sentence whose texts fit: the four position texts are copied, the speed is
taken from token 7 and the bearing from token 8. -/
theorem processRMC_active_sentence :
    (interpret fresh (bytes
        "$GPRMC,123519,A,4807.038,N,01131.000,E,022.4,084.4,230394,003.1,W*6A\r\n")).map
        State.position
      = .ok { latitude := bytes "4807.038", latitudeNS := bytes "N",
              longitude := bytes "01131.000", longitudeEW := bytes "E",
              altitude := .zero, speed := .atof (bytes "022.4"),
              bearing := .atof (bytes "084.4") } := by
  decide

set_option maxRecDepth 100000 in
/-- Claim C7 at its failing input: the sentence has token 2 equal to `A` and tokens 3 to 8
present and not empty, its checksum is valid, and the latitude has 20 characters. The copy
into the 20 byte array `m_latitude` needs 21 bytes: `processRMC` ends in the out of bounds
write, both called on the buffer and reached through `interpret`. -/
theorem processRMC_long_latitude :
    (tokenTexts (loopResult (buffered longLatitudeRMC))).take 9
        = [some (bytes "$GPRMC"), some (bytes "123519"), some (bytes "A"),
           some (bytes "12345678901234567890"), some (bytes "N"), some (bytes "01131.000"),
           some (bytes "E"), some (bytes "022.4"), some (bytes "084.4")] ∧
      processRMC (buffered longLatitudeRMC) = .error .textOverflow ∧
      interpret fresh longLatitudeRMC = .error .textOverflow := by
  decide

set_option maxRecDepth 100000 in
/-- Claim C9 (as amended): the token loop on the text of the spec stores 14 tokens and then
the null pointer. The text ends in a delimiter, and no token is produced behind it. -/
theorem tokenLoop_spec_fields :
    (tokenLoop SEP TOKEN_SLOTS specFields (some 0)).map tokenTexts
      = .ok ((["GGA", "123456", "4807.038", "N", "01131.000", "E", "1", "08", "0.9", "545.4",
               "M", "46.9", "M", ""].map (fun w => some (bytes w))) ++ [none]) := by
  decide

set_option maxRecDepth 100000 in
/-- Claim C9 as stated fails: the token loop does not yield the 15 tokens of the spec, which
end in two empty tokens. -/
theorem tokenLoop_spec_fields_not_15 :
    (tokenLoop SEP TOKEN_SLOTS specFields (some 0)).map tokenTexts
      ≠ .ok ((["GGA", "123456", "4807.038", "N", "01131.000", "E", "1", "08", "0.9", "545.4",
               "M", "46.9", "M", "", ""].map (fun w => some (bytes w))) ++ [none]) := by
  decide

set_option maxRecDepth 100000 in
/-- Claim C10 at its failing inputs. A GGA sentence and an RMC sentence with a valid
checksum and more fields than the standard ones make the token loop store a 21st entry; so
does the standard GGA sentence of a receiver without a fix when it follows a longer GSV
sentence, whose bytes are still in the buffer behind it. -/
theorem tokenLoop_overflow :
    processGGA (buffered manyFieldsGGA) = .error .tokenOverflow ∧
      interpret fresh manyFieldsGGA = .error .tokenOverflow ∧
      processRMC (buffered manyFieldsRMC) = .error .tokenOverflow ∧
      interpret fresh manyFieldsRMC = .error .tokenOverflow ∧
      (interpret fresh noFixGGA).map State.position = .ok fresh.position ∧
      (interpret fresh sentenceGSV).map State.position = .ok fresh.position ∧
      interpret fresh (sentenceGSV ++ noFixGGA) = .error .tokenOverflow := by
  decide

set_option maxRecDepth 100000 in
theorem parser_frames_witness :
    processGGA movingGGA = .ok (outcome (processGGA movingGGA)) ∧
      (outcome (processGGA movingGGA)).m_altitude = .atofFeet (bytes "545.4") ∧
      ((outcome (processGGA movingGGA)).m_speed = movingGGA.m_speed ∧
        (outcome (processGGA movingGGA)).m_bearing = movingGGA.m_bearing) ∧
      processRMC climbingRMC = .ok (outcome (processRMC climbingRMC)) ∧
      (outcome (processRMC climbingRMC)).m_speed = .atof (bytes "022.4") ∧
      (outcome (processRMC climbingRMC)).m_altitude = climbingRMC.m_altitude :=
  ⟨by decide, by decide,
    ⟨((parser_frames movingGGA).1 (outcome (processGGA movingGGA)) (by decide)).1,
      ((parser_frames movingGGA).1 (outcome (processGGA movingGGA)) (by decide)).2.1⟩,
    by decide, by decide,
    (parser_frames climbingRMC).2 (outcome (processRMC climbingRMC)) (by decide)⟩

set_option maxRecDepth 100000 in
/-- Claim C12 at its failing input. The first sentence fails the checksum validation and
leaves the Position State as the constructor set it, with the assembler idle at offset 0; so
does the short sentence when fed to the constructed state. Fed after the rejected sentence,
the short sentence, whose checksum is valid and which has no position fields of its own, makes
`processGGA` read on behind its line feed and store the latitude, the longitude, both
hemispheres and the altitude of the rejected sentence. -/
theorem rejected_fields_applied :
    interpret fresh rejectedGGA = .ok (outcome (interpret fresh rejectedGGA)) ∧
      (outcome (interpret fresh rejectedGGA)).m_offset = 0 ∧
      (outcome (interpret fresh rejectedGGA)).m_collect = false ∧
      (outcome (interpret fresh rejectedGGA)).position = fresh.position ∧
      (interpret fresh shortGGA).map State.position = .ok fresh.position ∧
      (interpret (outcome (interpret fresh rejectedGGA)) shortGGA).map State.position
        = .ok { latitude := bytes "2222.222", latitudeNS := bytes "S",
                longitude := bytes "03333.000", longitudeEW := bytes "W",
                altitude := .atofFeet (bytes "100.0"), speed := .zero, bearing := .zero } := by
  decide

set_option maxRecDepth 100000 in
/-- Claim C13 at its failing input: the sentence has a valid checksum, tokens 2 to 5 present
and not empty and no token 6, and is ended by a bare line feed. `processGGA` hands the null
pointer `pGGA[6]` to `strcmp`, both called on the buffer and reached through `interpret` from
the constructed state. -/
theorem processGGA_missing_fix :
    tokenTexts (loopResult (buffered partialGGA))
        = [some (bytes "$GPGGA"), some (bytes "123456"), some (bytes "4807.038"),
           some (bytes "N"), some (bytes "01131.000"), some (bytes "E*44"), none] ∧
      entry (loopResult (buffered partialGGA)).2 6 = none ∧
      processGGA (buffered partialGGA) = .error .nullPointer ∧
      interpret fresh partialGGA = .error .nullPointer := by
  decide

set_option maxRecDepth 100000 in
/-- Claim C18 at its failing input: the sentence is active, has a valid checksum, tokens 3 to
6 not empty, a speed and an empty course, and its latitude has 20 characters. The copy into
the 20 byte array `m_latitude` needs 21 bytes, so the parser ends in the out of bounds write
and latitude and longitude are not updated. With a latitude that fits, after a sentence that
set speed and bearing, the position texts are updated and speed and bearing are kept. -/
theorem processRMC_no_course :
    (tokenTexts (loopResult (buffered longLatitudeNoCourseRMC))).take 9
        = [some (bytes "$GPRMC"), some (bytes "123519"), some (bytes "A"),
           some (bytes "12345678901234567890"), some (bytes "N"), some (bytes "01131.000"),
           some (bytes "E"), some (bytes "022.4"), some []] ∧
      processRMC (buffered longLatitudeNoCourseRMC) = .error .textOverflow ∧
      interpret fresh longLatitudeNoCourseRMC = .error .textOverflow ∧
      (interpret fresh (earlierRMC ++ noCourseRMC)).map State.position
        = .ok { latitude := bytes "4807.038", latitudeNS := bytes "N",
                longitude := bytes "01131.000", longitudeEW := bytes "E",
                altitude := .zero, speed := .atof (bytes "010.0"),
                bearing := .atof (bytes "090.0") } := by
  decide

set_option maxRecDepth 100000 in
/-- Claim C3 at its failing inputs. The state before the line feed of a GGA sentence with a
valid checksum and no fix quality field is reachable, collecting with offset 39. The step
on the line feed dispatches to `processGGA`, which hands a null pointer to `strcmp`: the step
does not get to `m_offset = 0U; m_collect = false;`, so there is no state with offset 0 and
the flag off after this line feed. The same holds before the line feed of a GGA sentence
with too many fields, where the token loop writes behind the array. -/
theorem lf_dispatch_fault :
    Reachable beforePartialLineFeed ∧
      beforePartialLineFeed.m_collect = true ∧ beforePartialLineFeed.m_offset = 39 ∧
      checkXOR ((store beforePartialLineFeed 10).m_data.drop 1)
        (sub1 (store beforePartialLineFeed 10).m_offset) = .ok true ∧
      interpretByte beforePartialLineFeed 10 = .error .nullPointer ∧
      Reachable beforeManyFieldsLineFeed ∧
      beforeManyFieldsLineFeed.m_collect = true ∧
      interpretByte beforeManyFieldsLineFeed 10 = .error .tokenOverflow :=
  ⟨Reachable.feed fresh _ (bytes "$GPGGA,123456,4807.038,N,01131.000,E*44")
      (Reachable.init fresh (by decide)) (by decide),
    by decide, by decide, by decide, by decide,
    Reachable.feed fresh _
      (bytes "$GPGGA,123456,4807.038,N,01131.000,E,1,08,0.9,545.4,M,46.9,M,,,,,,*4D\r")
      (Reachable.init fresh (by decide)) (by decide),
    by decide, by decide⟩

/-! ## Invariants of reachable states -/

theorem dispatch_length (s t : State) (h : dispatch s = .ok t) :
    t.m_data.length = s.m_data.length := by
  unfold dispatch at h
  split at h
  · cases h
  · obtain ⟨mem, ps, hl, hm, _⟩ := processGGA_frame s t h
    rw [hm]; exact (tokenLoop_entries SEP s.m_data mem TOKEN_SLOTS ps hl).1
  · split at h
    · cases h
    · obtain ⟨mem, ps, hl, hm, _⟩ := processRMC_frame s t h
      rw [hm]; exact (tokenLoop_entries SEP s.m_data mem TOKEN_SLOTS ps hl).1
    · cases h; rfl

theorem completeSentence_length (s t : State) (h : completeSentence s = .ok t) :
    t.m_data.length = s.m_data.length := by
  unfold completeSentence at h
  cases hx : checkXOR (s.m_data.drop 1) (sub1 s.m_offset) with
  | error e => rw [hx] at h; cases h
  | ok ret =>
    rw [hx] at h
    cases hd : (if ret = true then dispatch s else Except.ok s) with
    | error e => simp only [hd] at h; cases h
    | ok s1 =>
      simp only [hd] at h
      cases h
      show s1.m_data.length = s.m_data.length
      cases ret with
      | true => exact dispatch_length s s1 (by simpa using hd)
      | false => simp at hd; rw [← hd]

theorem store_framed (s : State) (c : Nat) (hl : s.m_data.length = DATA_SIZE)
    (ho : s.m_offset < s.m_data.length)
    (h0 : (s.m_offset = 0 ∧ c = 36) ∨ (1 ≤ s.m_offset ∧ s.m_data[0]? = some 36)) :
    (store s c).m_data.length = DATA_SIZE ∧ (store s c).m_offset = s.m_offset + 1 ∧
      (store s c).m_offset ≤ DATA_SIZE ∧ (store s c).m_data[0]? = some 36 := by
  have hsz : s.m_offset < 1000 := by rw [← show DATA_SIZE = 1000 from rfl, ← hl]; exact ho
  have hoff : (store s c).m_offset = s.m_offset + 1 := by
    show (s.m_offset + 1) % 4294967296 = s.m_offset + 1
    exact Nat.mod_eq_of_lt (by omega)
  refine ⟨by simp [store, hl], hoff, by rw [hoff]; show s.m_offset + 1 ≤ 1000; omega, ?_⟩
  show (s.m_data.set s.m_offset c)[0]? = some 36
  rcases h0 with ⟨hz, hc⟩ | ⟨h1, hd⟩
  · rw [hz, hc, List.getElem?_set_self]
    rw [hz] at ho; exact ho
  · rw [List.getElem?_set_ne (by omega)]; exact hd

theorem interpretByte_framed (s t : State) (c : Nat) (hs : Framed s)
    (h : interpretByte s c = .ok t) : Framed t := by
  obtain ⟨hl, hle, hidle, hcoll⟩ := hs
  unfold interpretByte at h
  by_cases hc : c = 36
  · subst hc
    simp only [if_true] at h
    split at h
    · rename_i ho
      simp only [show (36 : Nat) ≠ 10 by decide, if_false] at h
      cases h
      have h0 : (s.m_offset = 0 ∧ (36 : Nat) = 36) ∨ (1 ≤ s.m_offset ∧ s.m_data[0]? = some 36) := by
        cases hcol : s.m_collect with
        | false => exact Or.inl ⟨hidle hcol, rfl⟩
        | true => exact Or.inr (hcoll hcol)
      obtain ⟨a, b, c1, d⟩ := store_framed { s with m_collect := true } 36 hl ho h0
      exact ⟨a, c1, fun hf => by simp [store] at hf, fun _ => ⟨by rw [b]; omega, d⟩⟩
    · cases h
  · simp only [hc, if_false] at h
    by_cases hcol : s.m_collect = true
    · simp only [hcol, if_true] at h
      split at h
      · rename_i ho
        obtain ⟨a, b, c1, d⟩ := store_framed s c hl ho (Or.inr (hcoll hcol))
        split at h
        · have hr := completeSentence_reset _ _ h
          have hlen := completeSentence_length _ _ h
          exact ⟨by rw [hlen]; exact a, by rw [hr.1]; exact Nat.zero_le _, fun _ => hr.1,
            fun hf => by rw [hr.2] at hf; cases hf⟩
        · cases h
          exact ⟨a, c1, fun hf => by simp [store, hcol] at hf, fun _ => ⟨by rw [b]; omega, d⟩⟩
      · cases h
    · simp only [hcol] at h
      cases h
      exact ⟨hl, hle, hidle, hcoll⟩

theorem interpret_framed (s t : State) (data : List Nat) (hs : Framed s)
    (h : interpret s data = .ok t) : Framed t := by
  induction data generalizing s with
  | nil => simp [interpret] at h; cases h; exact hs
  | cons c rest ih =>
    simp only [interpret] at h
    cases h1 : interpretByte s c with
    | error e => simp [h1] at h
    | ok s1 =>
      simp only [h1] at h
      exact ih s1 (interpretByte_framed s s1 c hs h1) h

theorem reachable_framed (s : State) (h : Reachable s) : Framed s := by
  induction h with
  | init s hi =>
    exact ⟨hi.1, by rw [hi.2.1]; exact Nat.zero_le _, fun _ => hi.2.1,
      fun hc => by rw [hi.2.2.1] at hc; cases hc⟩
  | feed s t data _ hf ih => exact interpret_framed s t data ih hf

/-! ## Capacity of the assembly buffer -/

theorem interpretByte_store (s : State) (c : Nat) (hcol : s.m_collect = true)
    (ho : s.m_offset < s.m_data.length) (hc : c ≠ 10) :
    interpretByte s c = .ok (store s c) := by
  unfold interpretByte
  by_cases h36 : c = 36
  · have e : ({ s with m_collect := true } : State) = s := by
      cases s; simp_all
    simp only [h36, if_true, e, hcol, ho, show (36 : Nat) ≠ 10 by decide, if_false]
  · simp only [h36, if_false, hcol, if_true, ho, hc]

theorem interpretByte_full (s : State) (c : Nat) (hcol : s.m_collect = true)
    (ho : s.m_data.length ≤ s.m_offset) :
    interpretByte s c = .error .dataOverflow := by
  unfold interpretByte
  have hno : ¬ s.m_offset < s.m_data.length := Nat.not_lt.mpr ho
  by_cases h36 : c = 36
  · simp only [h36, if_true, hno, if_false]
  · simp only [h36, if_false, hcol, if_true, hno]

/-- While collecting, bytes other than the line feed are stored one after the other. -/
theorem interpret_collecting (body : List Nat) :
    ∀ s : State, s.m_collect = true → s.m_data.length = DATA_SIZE →
      s.m_offset + body.length ≤ DATA_SIZE → (∀ b ∈ body, b ≠ 10) →
      ∃ t, interpret s body = .ok t ∧ t.m_collect = true ∧
        t.m_offset = s.m_offset + body.length ∧ t.m_data.length = DATA_SIZE ∧
        t.position = s.position := by
  induction body with
  | nil => intro s hcol hl _ _; exact ⟨s, rfl, hcol, rfl, hl, rfl⟩
  | cons b rest ih =>
    intro s hcol hl hfit hlf
    have hfit1 : s.m_offset + (rest.length + 1) ≤ 1000 := by simpa [DATA_SIZE] using hfit
    have ho : s.m_offset < s.m_data.length := by rw [hl]; show s.m_offset < 1000; omega
    have hoff : (store s b).m_offset = s.m_offset + 1 := by
      show (s.m_offset + 1) % 4294967296 = s.m_offset + 1
      exact Nat.mod_eq_of_lt (by omega)
    obtain ⟨t, ht, h1, h2, h3, h4⟩ := ih (store s b) hcol (by simp [store, hl])
      (by rw [hoff]; show s.m_offset + 1 + rest.length ≤ 1000; omega)
      (fun x hx => hlf x (by simp [hx]))
    refine ⟨t, ?_, h1, by rw [h2, hoff]; simp; omega, h3, h4⟩
    rw [interpret, interpretByte_store s b hcol ho (hlf b (by simp))]
    exact ht

/-- Claim C11 at its failing inputs: from every state the constructor can leave, a `$`
followed by 999 bytes without a line feed is stored without a fault and leaves the
assembler collecting with offset 1000, which is not below the capacity; whatever byte comes
next is written to `m_data[1000]`, behind the end of the array. Nothing returns the assembler
to the idle state. -/
theorem data_overflow (s : State) (body : List Nat) (hs : Initial s)
    (hlen : body.length = 999) (hlf : ∀ b ∈ body, b ≠ 10) :
    ∃ t, interpret s (36 :: body) = .ok t ∧ Reachable t ∧ t.m_collect = true ∧
      t.m_offset = 1000 ∧ ¬ t.m_offset < DATA_SIZE ∧
      ∀ c, interpretByte t c = .error .dataOverflow ∧
        interpret s (36 :: body ++ [c]) = .error .dataOverflow := by
  have hl : s.m_data.length = DATA_SIZE := hs.1
  have ho : s.m_offset = 0 := hs.2.1
  have hfirst : interpretByte s 36 = .ok (store { s with m_collect := true } 36) := by
    unfold interpretByte
    simp only [if_true, show (36 : Nat) ≠ 10 by decide, if_false]
    rw [if_pos]
    rw [hl, ho]; decide
  have hoff : (store { s with m_collect := true } 36).m_offset = 1 := by
    show (s.m_offset + 1) % 4294967296 = 1
    rw [ho]
  obtain ⟨t, ht, h1, h2, h3, _⟩ := interpret_collecting body (store { s with m_collect := true } 36)
    rfl (by simp [store, hl]) (by rw [hoff, hlen]; decide) hlf
  have hrun : interpret s (36 :: body) = .ok t := by
    rw [interpret, hfirst]; exact ht
  have h1000 : t.m_offset = 1000 := by rw [h2, hoff, hlen]
  have hfull : ∀ c, interpretByte t c = .error .dataOverflow := fun c =>
    interpretByte_full t c h1 (by rw [h3, h1000]; decide)
  refine ⟨t, hrun, Reachable.feed s t _ (Reachable.init s hs) hrun, h1, h1000,
    by rw [h1000]; decide, fun c => ⟨hfull c, ?_⟩⟩
  rw [interpret_append s (36 :: body) [c], hrun]
  show interpret t [c] = _
  rw [interpret, hfull c]

set_option maxRecDepth 100000 in
theorem data_overflow_witness :
    ∃ t, interpret fresh (36 :: List.replicate 999 65) = .ok t ∧ Reachable t ∧
      t.m_collect = true ∧ t.m_offset = 1000 ∧ ¬ t.m_offset < DATA_SIZE ∧
      ∀ c, interpretByte t c = .error .dataOverflow ∧
        interpret fresh (36 :: List.replicate 999 65 ++ [c]) = .error .dataOverflow :=
  data_overflow fresh (List.replicate 999 65) (by decide) (List.length_replicate _ _)
    (by intro b hb; rw [List.eq_of_mem_replicate hb]; decide)

/-- Claim C17: a `$` that arrives while a sentence is being collected is stored like any
other byte. With offset n below the capacity the step returns, the assembler keeps
collecting, the offset is n + 1, byte n of the buffer is the `$`, the bytes before it are
unchanged, and so is everything else. -/
theorem dollar_while_collecting (s : State) (hcol : s.m_collect = true)
    (hl : s.m_data.length = DATA_SIZE) (ho : s.m_offset < DATA_SIZE) :
    ∃ t, interpretByte s 36 = .ok t ∧ t.m_collect = true ∧ t.m_offset = s.m_offset + 1 ∧
      t.m_data[s.m_offset]? = some 36 ∧ t.m_data.take s.m_offset = s.m_data.take s.m_offset ∧
      t.m_data.drop (s.m_offset + 1) = s.m_data.drop (s.m_offset + 1) ∧
      t.position = s.position := by
  have ho1 : s.m_offset < s.m_data.length := by rw [hl]; exact ho
  have hsz : s.m_offset < 1000 := ho
  refine ⟨store s 36, interpretByte_store s 36 hcol ho1 (by decide), hcol, ?_, ?_, ?_, ?_, rfl⟩
  · show (s.m_offset + 1) % 4294967296 = s.m_offset + 1
    exact Nat.mod_eq_of_lt (by omega)
  · show (s.m_data.set s.m_offset 36)[s.m_offset]? = some 36
    exact List.getElem?_set_self ho1
  · show (s.m_data.set s.m_offset 36).take s.m_offset = _
    rw [List.set_take, List.set_eq_of_length_le (by simp)]
  · show (s.m_data.set s.m_offset 36).drop (s.m_offset + 1) = _
    exact List.drop_set_of_lt _ _ (Nat.lt_succ_self _)

set_option maxRecDepth 100000 in
theorem dollar_while_collecting_witness :
    ∃ t, interpretByte (buffered (bytes "$GPGGA,12")) 36 = .ok t ∧ t.m_collect = true ∧
      t.m_offset = (buffered (bytes "$GPGGA,12")).m_offset + 1 ∧
      t.m_data[(buffered (bytes "$GPGGA,12")).m_offset]? = some 36 ∧
      t.m_data.take (buffered (bytes "$GPGGA,12")).m_offset
        = (buffered (bytes "$GPGGA,12")).m_data.take (buffered (bytes "$GPGGA,12")).m_offset ∧
      t.m_data.drop ((buffered (bytes "$GPGGA,12")).m_offset + 1)
        = (buffered (bytes "$GPGGA,12")).m_data.drop
            ((buffered (bytes "$GPGGA,12")).m_offset + 1) ∧
      t.position = (buffered (bytes "$GPGGA,12")).position :=
  dollar_while_collecting (buffered (bytes "$GPGGA,12")) (by decide) (by decide) (by decide)

/-! ## Accepted sentences lie inside the buffer -/

/-- Claim C20: in a reachable state, when the line feed that completes a sentence is stored and
`checkXOR` accepts the bytes behind the `$`, the sentence has at least 6 bytes, byte 0 of the
buffer is the `$` and the last byte is the line feed; the `*` found, at index p of the buffer,
has its two checksum bytes before the line feed. So the checksum bytes and the bytes at
offsets 3 to 5 lie inside the sentence, and the decisions do not depend on what lies behind
it: with the same bytes up to the offset and any other bytes behind, `checkXOR` accepts as
well and both comparisons with `GGA` and `RMC` give the same result. -/
theorem accepted_inside (s : State) (hs : Reachable s) (hcol : s.m_collect = true)
    (ho : s.m_offset < s.m_data.length)
    (hacc : checkXOR ((store s 10).m_data.drop 1) (sub1 (store s 10).m_offset) = .ok true) :
    6 ≤ (store s 10).m_offset ∧ (store s 10).m_data[0]? = some 36 ∧
    (store s 10).m_data[(store s 10).m_offset - 1]? = some 10 ∧
    (∃ p, 2 ≤ p ∧ p + 3 < (store s 10).m_offset ∧ (store s 10).m_data[p]? = some 42 ∧
      ∀ i, p < i → i < (store s 10).m_offset → (store s 10).m_data[i]? ≠ some 42) ∧
    (∀ mem : List Nat, mem.length = DATA_SIZE →
      mem.take (store s 10).m_offset = (store s 10).m_data.take (store s 10).m_offset →
      checkXOR (mem.drop 1) (sub1 (store s 10).m_offset) = .ok true ∧
      memcmp GGA mem 3 = memcmp GGA (store s 10).m_data 3 ∧
      memcmp RMC mem 3 = memcmp RMC (store s 10).m_data 3) := by
  obtain ⟨hl, _, _, hc⟩ := reachable_framed s hs
  obtain ⟨h1, h36⟩ := hc hcol
  have hsz : s.m_offset < 1000 := by rw [← show DATA_SIZE = 1000 from rfl, ← hl]; exact ho
  obtain ⟨hl2, hoff, _, h0⟩ := store_framed s 10 hl ho (Or.inr ⟨h1, h36⟩)
  have hlf : (store s 10).m_data[s.m_offset]? = some 10 := by
    show (s.m_data.set s.m_offset 10)[s.m_offset]? = some 10
    exact List.getElem?_set_self ho
  have hsub : sub1 (store s 10).m_offset = s.m_offset := by
    rw [hoff, sub1_pos _ (by omega), Nat.add_sub_cancel]
  rw [hsub] at hacc
  obtain ⟨p, c, hp1, hp2, hfind, hstar, hcalc, hcmp, hd1, hd2⟩ :=
    checkXOR_accept _ _ h1 hacc
  rw [List.getElem?_drop] at hstar hd1 hd2
  -- the line feed is none of the three bytes
  have hne1 : 1 + p ≠ s.m_offset := by
    intro he; rw [he, hlf] at hstar; cases hstar
  have hne2 : 1 + (p + 1) ≠ s.m_offset := by
    intro he; rw [he, hlf] at hd1
    have := hexDigit_ge (c / 16 % 16)
    have h10 : hexDigit (c / 16 % 16) = 10 := (Option.some.inj hd1).symm
    omega
  have hne3 : 1 + (p + 2) ≠ s.m_offset := by
    intro he; rw [he, hlf] at hd2
    have := hexDigit_ge (c % 16)
    have h10 : hexDigit (c % 16) = 10 := (Option.some.inj hd2).symm
    omega
  have hp4 : p + 4 ≤ s.m_offset := by omega
  refine ⟨by rw [hoff]; omega, h0, by rw [hoff, Nat.add_sub_cancel]; exact hlf, ?_, ?_⟩
  · refine ⟨1 + p, by omega, by rw [hoff]; omega, hstar, ?_⟩
    intro i hi1 hi2
    rw [hoff] at hi2
    by_cases hi : i = s.m_offset
    · rw [hi, hlf]; intro he; cases he
    · have := findStar_last _ _ p hfind (i - 1) (by omega) (by omega)
      rw [List.getElem?_drop] at this
      have e : 1 + (i - 1) = i := by omega
      rw [e] at this
      exact this
  · intro mem hml htake
    rw [hoff] at htake
    have hag : ∀ i, i < s.m_offset + 1 → mem[i]? = (store s 10).m_data[i]? := by
      intro i hi
      have := congrArg (fun l => l[i]?) htake
      simpa [List.getElem?_take_of_lt hi] using this
    have hlen : mem.length = (store s 10).m_data.length := by rw [hml, hl2]
    have hdl : (mem.drop 1).length = ((store s 10).m_data.drop 1).length := by
      simp [hlen]
    have hagd : ∀ i, i < s.m_offset → (mem.drop 1)[i]? = ((store s 10).m_data.drop 1)[i]? := by
      intro i hi
      rw [List.getElem?_drop, List.getElem?_drop]
      exact hag (1 + i) (by omega)
    refine ⟨?_, memcmp_congr GGA _ _ 3 hlen (fun i hi => hag i (by simp [GGA] at hi; omega)),
      memcmp_congr RMC _ _ 3 hlen (fun i hi => hag i (by simp [RMC] at hi; omega))⟩
    rw [hsub]
    unfold checkXOR
    rw [sub1_pos _ h1,
      findStar_congr (mem.drop 1) ((store s 10).m_data.drop 1) (s.m_offset - 1)
        (fun i _ h2 => hagd i (by omega)), hfind]
    have hp0 : p ≠ 0 := by omega
    simp only [hp0, if_false]
    rw [calcXOR_congr (mem.drop 1) ((store s 10).m_data.drop 1) p
        (fun i hi => hagd i (by omega)), hcalc]
    show memcmp (hex2 c) (mem.drop 1) (p + 1) = .ok true
    rw [memcmp_congr (hex2 c) (mem.drop 1) ((store s 10).m_data.drop 1) (p + 1) hdl
        (fun i hi => hagd i (by simp [hex2] at hi; omega))]
    exact hcmp

set_option maxRecDepth 100000 in
theorem accepted_inside_witness :
    Reachable beforeLineFeed ∧
      checkXOR ((store beforeLineFeed 10).m_data.drop 1) (sub1 (store beforeLineFeed 10).m_offset)
        = .ok true ∧
      6 ≤ (store beforeLineFeed 10).m_offset ∧ (store beforeLineFeed 10).m_data[0]? = some 36 :=
  ⟨Reachable.feed fresh _
      (bytes "$GPGGA,123456,4807.038,N,01131.000,E,1,08,0.9,545.4,M,46.9,M,,*4D\r")
      (Reachable.init fresh (by decide)) (by decide),
    by decide,
    (accepted_inside beforeLineFeed
      (Reachable.feed fresh _
        (bytes "$GPGGA,123456,4807.038,N,01131.000,E,1,08,0.9,545.4,M,46.9,M,,*4D\r")
        (Reachable.init fresh (by decide)) (by decide))
      (by decide) (by decide) (by decide)).1,
    (accepted_inside beforeLineFeed
      (Reachable.feed fresh _
        (bytes "$GPGGA,123456,4807.038,N,01131.000,E,1,08,0.9,545.4,M,46.9,M,,*4D\r")
        (Reachable.init fresh (by decide)) (by decide))
      (by decide) (by decide) (by decide)).2.1⟩

end MobileGPS
